import Mathlib

/-!
Verification of the agent command execution and sandboxing subsystem of the
XyraAI workspace server (`server/routes.ts`).

The development shallowly embeds the relevant code: the tool-call protocol
parser `parseToolCalls`, the tool dispatcher `executeTool`, the workspace path
guard (`path.join` + `String.startsWith`), the blocked-command regex policies,
the one-shot terminal execution endpoint, the file HTTP endpoints, and the PTY
session teardown handlers.  Strings are modelled as `List Char` where character
level reasoning is needed; machine behaviour that is external to the repository
(the operating system, `child_process.exec`, the Groq API) is abstracted into
explicitly passed parameters, so that theorems quantifying over those
parameters express "the code does not depend on / never invokes it".
-/

/-! ## Character and list-of-character utilities -/

/-- ASCII whitespace, modelling both the JavaScript regex class `\s` and the
whitespace stripped by `String.prototype.trim` (the additional Unicode space
code points accepted by JavaScript are not produced by any input considered
here). -/
def isWsChar (c : Char) : Bool :=
  c = ' ' || c = '\t' || c = '\n' || c = '\r' || c = '\x0b' || c = '\x0c'

/-- Strip the literal `pat` from the front of `cs`; `some rest` on success. -/
def stripLit : List Char → List Char → Option (List Char)
  | [], cs => some cs
  | _ :: _, [] => none
  | p :: ps, c :: cs => if p = c then stripLit ps cs else none

/-- Split `cs` at the first occurrence of the literal substring `pat`:
`some (before, after)` with `cs = before ++ pat ++ after` and no occurrence of
`pat` starting inside `before`.  Models both the lazy regex body scan
(`[\s\S]*?</tool>`) and `String.prototype.replace` with a string argument. -/
def splitOnFirst (pat : List Char) : List Char → Option (List Char × List Char)
  | [] =>
    match stripLit pat [] with
    | some r => some ([], r)
    | none => none
  | c :: cs =>
    match stripLit pat (c :: cs) with
    | some r => some ([], r)
    | none =>
      match splitOnFirst pat cs with
      | some (b, a) => some (c :: b, a)
      | none => none

/-- JavaScript `text.replace(pat, "")` for a plain-string pattern: remove the first
occurrence of `pat`, or return `text` unchanged when there is none. -/
def replaceFirst (text pat : List Char) : List Char :=
  match splitOnFirst pat text with
  | some (b, a) => b ++ a
  | none => text

/-- Whether the literal `pat` occurs as a contiguous substring of `s`. -/
def containsPat (pat : List Char) : List Char → Bool
  | [] => (stripLit pat []).isSome
  | c :: cs => (stripLit pat (c :: cs)).isSome || containsPat pat cs

/-- Drop the longest suffix whose characters satisfy `p`. -/
def dropTrail (p : Char → Bool) (l : List Char) : List Char :=
  (l.reverse.dropWhile p).reverse

/-- JavaScript `String.prototype.trim`. -/
def trimChars (l : List Char) : List Char :=
  dropTrail isWsChar (l.dropWhile isWsChar)

/-! ## JSON values and `JSON.parse`

`JSON.parse` is the JavaScript builtin used by the tool-call parser.  It is
embedded as a standard recursive-descent parser over `List Char`.  Numeric
values are kept as their source lexeme (the parser only ever needs to know
whether decoding succeeds and to transport the decoded value; no arithmetic is
performed on JSON numbers anywhere in the subsystem). -/

inductive Json where
  | null : Json
  | bool : Bool → Json
  | num : String → Json
  | str : String → Json
  | arr : List Json → Json
  | obj : List (String × Json) → Json

def Json.isNull : Json → Bool
  | Json.null => true
  | _ => false

/-- JSON's own whitespace class (RFC 8259: space, tab, line feed, carriage
return). -/
def isJsonWs (c : Char) : Bool :=
  c = ' ' || c = '\t' || c = '\n' || c = '\r'

def hexVal (c : Char) : Option Nat :=
  if '0' ≤ c ∧ c ≤ '9' then some (c.toNat - '0'.toNat)
  else if 'a' ≤ c ∧ c ≤ 'f' then some (c.toNat - 'a'.toNat + 10)
  else if 'A' ≤ c ∧ c ≤ 'F' then some (c.toNat - 'A'.toNat + 10)
  else none

def escChar (c : Char) : Option Char :=
  if c = '\x22' then some '\x22'
  else if c = '\\' then some '\\'
  else if c = '/' then some '/'
  else if c = 'b' then some '\x08'
  else if c = 'f' then some '\x0c'
  else if c = 'n' then some '\n'
  else if c = 'r' then some '\r'
  else if c = 't' then some '\t'
  else none

/-- Parse the body of a JSON string after the opening quote, returning the
decoded characters and the input after the closing quote.  `fuel` bounds the
number of produced characters; each step consumes at least one input
character, so `input.length + 1` always suffices. -/
def pStringBodyF : Nat → List Char → Option (List Char × List Char)
  | 0, _ => none
  | _, [] => none
  | Nat.succ fuel, c :: cs =>
    if c = '\x22' then some ([], cs)
    else if c = '\\' then
      match cs with
      | [] => none
      | e :: cs2 =>
        if e = 'u' then
          match cs2 with
          | h1 :: h2 :: h3 :: h4 :: cs3 =>
            match hexVal h1, hexVal h2, hexVal h3, hexVal h4 with
            | some a, some b, some d, some e4 =>
              match pStringBodyF fuel cs3 with
              | some (tail, rest) =>
                some (Char.ofNat (a * 4096 + b * 256 + d * 16 + e4) :: tail, rest)
              | none => none
            | _, _, _, _ => none
          | _ => none
        else
          match escChar e with
          | some d =>
            match pStringBodyF fuel cs2 with
            | some (tail, rest) => some (d :: tail, rest)
            | none => none
          | none => none
    else if c.toNat < 32 then none
    else
      match pStringBodyF fuel cs with
      | some (tail, rest) => some (c :: tail, rest)
      | none => none

def pStringBody (cs : List Char) : Option (List Char × List Char) :=
  pStringBodyF (cs.length + 1) cs

def isDigit (c : Char) : Bool := '0' ≤ c && c ≤ '9'

/-- Parse a JSON number lexeme (strict RFC 8259 grammar, as `JSON.parse`
enforces): optional minus, integer part without leading zeros, optional
fraction, optional exponent. -/
def pNumber (cs : List Char) : Option (List Char × List Char) :=
  let (sign, cs1) :=
    match cs with
    | '-' :: rest => (['-'], rest)
    | _ => (([] : List Char), cs)
  match cs1 with
  | [] => none
  | d :: rest =>
    if ¬ isDigit d then none
    else
      let (intTail, cs2) :=
        if d = '0' then (([] : List Char), rest)
        else (rest.takeWhile isDigit, rest.dropWhile isDigit)
      let (frac, cs3) :=
        match cs2 with
        | '.' :: f :: fr =>
          if isDigit f then
            ('.' :: f :: fr.takeWhile isDigit, fr.dropWhile isDigit)
          else (([] : List Char), cs2)
        | _ => (([] : List Char), cs2)
      -- a '.' not followed by a digit makes the whole parse fail in JSON.parse
      let fracBad : Bool :=
        match cs2 with
        | '.' :: f :: _ => ¬ isDigit f
        | ['.'] => true
        | _ => false
      if fracBad then none
      else
        let (expPart, cs4) :=
          match cs3 with
          | e :: more =>
            if e = 'e' ∨ e = 'E' then
              let (s2, more2) :=
                match more with
                | '+' :: m => (['+'], m)
                | '-' :: m => (['-'], m)
                | _ => (([] : List Char), more)
              match more2 with
              | g :: _ =>
                if isDigit g then
                  (e :: s2 ++ more2.takeWhile isDigit, more2.dropWhile isDigit)
                else ([], cs3)
              | [] => ([], cs3)
            else ([], cs3)
          | [] => ([], cs3)
        let expBad : Bool :=
          match cs3 with
          | e :: more =>
            if e = 'e' ∨ e = 'E' then
              (match more with
               | '+' :: (g :: _) => ¬ isDigit g
               | '-' :: (g :: _) => ¬ isDigit g
               | g :: _ => ¬ (isDigit g ∨ g = '+' ∨ g = '-')
               | [] => true)
            else false
          | [] => false
        if expBad then none
        else some (sign ++ d :: intTail ++ frac ++ expPart, cs4)

/-- The parsing mode of the single fuelled JSON parser: a value, the members
of an object (with the members decoded so far), or the items of an array. -/
inductive PMode where
  | val : PMode
  | objMembers : List (String × Json) → PMode
  | arrItems : List Json → PMode

/-- One recursive-descent JSON parser covering values, object member lists and
array item lists.  `fuel` bounds the recursion depth; every recursive call
consumes at least one input character first, so any fuel of at least
`input.length + 1` is sufficient. -/
def pStep : Nat → PMode → List Char → Option (Json × List Char)
  | 0, _, _ => none
  | Nat.succ fuel, PMode.val, cs =>
    match cs.dropWhile isJsonWs with
    | [] => none
    | c :: rest =>
      if c = '\x7b' then
        match rest.dropWhile isJsonWs with
        | '\x7d' :: rest2 => some (Json.obj [], rest2)
        | _ => pStep fuel (PMode.objMembers []) rest
      else if c = '[' then
        match rest.dropWhile isJsonWs with
        | ']' :: rest2 => some (Json.arr [], rest2)
        | _ => pStep fuel (PMode.arrItems []) rest
      else if c = '\x22' then
        match pStringBody rest with
        | some (chars, after) => some (Json.str ⟨chars⟩, after)
        | none => none
      else if c = 't' then
        match stripLit ['r', 'u', 'e'] rest with
        | some after => some (Json.bool true, after)
        | none => none
      else if c = 'f' then
        match stripLit ['a', 'l', 's', 'e'] rest with
        | some after => some (Json.bool false, after)
        | none => none
      else if c = 'n' then
        match stripLit ['u', 'l', 'l'] rest with
        | some after => some (Json.null, after)
        | none => none
      else
        match pNumber (c :: rest) with
        | some (lex, after) => some (Json.num ⟨lex⟩, after)
        | none => none
  | Nat.succ fuel, PMode.objMembers acc, cs =>
    match cs.dropWhile isJsonWs with
    | '\x22' :: rest =>
      match pStringBody rest with
      | some (key, afterKey) =>
        match afterKey.dropWhile isJsonWs with
        | ':' :: afterColon =>
          match pStep fuel PMode.val afterColon with
          | some (v, afterVal) =>
            match afterVal.dropWhile isJsonWs with
            | ',' :: more => pStep fuel (PMode.objMembers (acc ++ [(⟨key⟩, v)])) more
            | '\x7d' :: more => some (Json.obj (acc ++ [(⟨key⟩, v)]), more)
            | _ => none
          | none => none
        | _ => none
      | none => none
    | _ => none
  | Nat.succ fuel, PMode.arrItems acc, cs =>
    match pStep fuel PMode.val cs with
    | some (v, afterVal) =>
      match afterVal.dropWhile isJsonWs with
      | ',' :: more => pStep fuel (PMode.arrItems (acc ++ [v])) more
      | ']' :: more => some (Json.arr (acc ++ [v]), more)
      | _ => none
    | none => none

def pVal (fuel : Nat) (cs : List Char) : Option (Json × List Char) :=
  pStep fuel PMode.val cs

/-- Model of `JSON.parse`: a full-input JSON value, or `none` when decoding fails (the
JavaScript call throws a `SyntaxError`). -/
def jsonParse (cs : List Char) : Option Json :=
  match pVal (cs.length + 1) cs with
  | some (v, rest) => if rest.dropWhile isJsonWs = [] then some v else none
  | none => none

/-! ## The tool-call protocol parser (`parseToolCalls`, routes.ts 707-728)

The source scans the model text with the global regex

    /<tool\s+name="([^"]+)">([\s\S]*?)<\/tool>/g

and for each match attempts `JSON.parse(match[2].trim())`; on success it
pushes `{tool: match[1], args}` and removes the first occurrence of the exact
matched text from the evolving display text; on failure the block is skipped
and scanning continues after the match.  The regex match at a fixed position is
deterministic: `\s+` is a greedy whitespace run necessarily followed by the
non-whitespace character `n` of `name=`, `[^"]+` is the maximal run of
non-quote characters necessarily followed by `"`, and the lazy body extends to
the first following occurrence of `</tool>`. -/

def startTag : List Char := ['<', 't', 'o', 'o', 'l']
def nameEq : List Char := ['n', 'a', 'm', 'e', '=', '\x22']
def quotGt : List Char := ['\x22', '>']
def closerTag : List Char := ['<', '/', 't', 'o', 'o', 'l', '>']

structure ToolCall where
  tool : String
  args : Json

/-- Attempt the regex match at the current position.  On success returns
`(matchedText, name, body, rest)` where `matchedText` is the full `match[0]`
span and `rest` the input after it. -/
def matchAt (cs : List Char) : Option (List Char × List Char × List Char × List Char) :=
  match stripLit startTag cs with
  | none => none
  | some cs1 =>
    let ws := cs1.takeWhile isWsChar
    let cs2 := cs1.dropWhile isWsChar
    if ws.isEmpty then none
    else
      match stripLit nameEq cs2 with
      | none => none
      | some cs3 =>
        let nm := cs3.takeWhile (fun c => c != '\x22')
        let cs4 := cs3.dropWhile (fun c => c != '\x22')
        if nm.isEmpty then none
        else
          match stripLit quotGt cs4 with
          | none => none
          | some cs5 =>
            match splitOnFirst closerTag cs5 with
            | none => none
            | some (bd, rest) =>
              some (startTag ++ ws ++ nameEq ++ nm ++ quotGt ++ bd ++ closerTag,
                    nm, bd, rest)

/-- Find the leftmost regex match at or after the current position (the
behaviour of `RegExp.prototype.exec` advancing through the subject). -/
def scanBlock : List Char → Option (List Char × List Char × List Char × List Char)
  | [] => none
  | c :: cs =>
    match matchAt (c :: cs) with
    | some r => some r
    | none => scanBlock cs

/-- The `while ((match = toolRegex.exec(content)) !== null)` loop.  `remaining`
is the unscanned suffix of the original content (the region after
`lastIndex`), `text` the evolving display text.  One unit of fuel is consumed
per match, so `content.length + 1` units always suffice. -/
def parseLoopCore : Nat → List Char → List Char → List ToolCall → List Char × List ToolCall
  | 0, _, text, acc => (text, acc)
  | Nat.succ fuel, remaining, text, acc =>
    match scanBlock remaining with
    | none => (text, acc)
    | some (span, nm, bd, rest) =>
      match jsonParse (trimChars bd) with
      | some v => parseLoopCore fuel rest (replaceFirst text span) (acc ++ [⟨⟨nm⟩, v⟩])
      | none => parseLoopCore fuel rest text acc

/-- The function `parseToolCalls` (routes.ts 707-728): returns the display text (trimmed)
and the extracted invocations in textual order. -/
def parseToolCalls (content : String) : String × List ToolCall :=
  let cs := content.data
  let r := parseLoopCore (cs.length + 1) cs cs []
  (⟨trimChars r.1⟩, r.2)

/-! ## POSIX path resolution (`path.join`, `path.normalize`, `path.dirname`)

`WORKSPACE_DIR` is `path.join(process.cwd(), "workspace")`; every handler
resolves a request path with `path.join(WORKSPACE_DIR, p)` and then checks
`fullPath.startsWith(WORKSPACE_DIR)`.  The Node `posix` implementations are
embedded below.  `path.join` concatenates its arguments with `/` and
normalizes; normalization collapses empty and `.` segments, resolves `..`
against the preceding segment (dropping `..` that would climb above the root
of an absolute path), and preserves a trailing separator. -/

/-- Split on `/` (the separators themselves are dropped). -/
def splitSlash : List Char → List (List Char)
  | [] => [[]]
  | c :: cs =>
    let r := splitSlash cs
    if c = '/' then [] :: r
    else
      match r with
      | s :: ss => (c :: s) :: ss
      | [] => [[c]]

/-- One step of Node's `normalizeString`: push a segment onto the resolved
stack (stored in reverse). -/
def pushSeg (isAbs : Bool) (stack : List (List Char)) (seg : List Char) : List (List Char) :=
  if seg = [] ∨ seg = ['.'] then stack
  else if seg = ['.', '.'] then
    match stack with
    | [] => if isAbs then [] else [seg]
    | top :: rest => if top = ['.', '.'] then seg :: stack else rest
  else seg :: stack

/-- Join a list of segments with `/`. -/
def joinSegs : List (List Char) → List Char
  | [] => []
  | [s] => s
  | s :: rest => s ++ '/' :: joinSegs rest

/-- Node `path.posix.normalize`. -/
def pathNormalize (s : String) : String :=
  let cs := s.data
  match cs with
  | [] => "."
  | _ =>
    let isAbs : Bool := cs.head? = some '/'
    let trailing : Bool := cs.getLast? = some '/' && cs.length > 1
    let core := joinSegs ((splitSlash cs).foldl (pushSeg isAbs) []).reverse
    if core = [] then
      (if isAbs then "/" else if trailing then "./" else ".")
    else
      ⟨(if isAbs then '/' :: core else core) ++ (if trailing then ['/'] else [])⟩

/-- Node `path.posix.join` restricted to two arguments, the only arity used by
the subsystem. -/
def pathJoin (a b : String) : String :=
  if a = "" ∧ b = "" then "."
  else if b = "" then pathNormalize a
  else if a = "" then pathNormalize b
  else pathNormalize ⟨a.data ++ '/' :: b.data⟩

/-- Node `path.posix.dirname` (used by the handlers to create parent
directories). -/
def pathDirname (s : String) : String :=
  let cs := s.data
  let stripped := dropTrail (fun c => c = '/') cs
  match stripped with
  | [] => if cs.head? = some '/' then "/" else "."
  | _ =>
    let pre := dropTrail (fun c => c != '/') stripped
    match pre with
    | [] => "."
    | ['/'] => "/"
    | _ => ⟨dropTrail (fun c => c = '/') pre⟩

/-- JavaScript `String.prototype.startsWith` (a plain code-unit prefix test —
note: no separator requirement). -/
def strStartsWith (s p : String) : Bool := p.data.isPrefixOf s.data

/-- JavaScript `String.prototype.slice(0, n)`. -/
def strTake (s : String) (n : Nat) : String := ⟨s.data.take n⟩

/-- Substring containment of `p` in `s`. -/
def strContains (s p : String) : Bool := containsPat p.data s.data

/-- Suffix test of `p` against `s`. -/
def strEndsWith (s p : String) : Bool := p.data.isSuffixOf s.data

/-! ## Regular-expression policy engine

The blocked-command policies are lists of JavaScript regexes tested with
`pattern.test(command)`.  They are embedded as a small total regex calculus
with Brzozowski derivatives; each policy entry below carries the original
regex in a comment.  `RegExp.prototype.test` is unanchored, so unanchored
source patterns are wrapped in `(any char)*` on both sides; the one anchored
pattern (`/^(apt|…)\s/`) is wrapped only on the right. -/

inductive Rx where
  | fail : Rx
  | eps : Rx
  | cls : (Char → Bool) → Rx
  | seq : Rx → Rx → Rx
  | alt : Rx → Rx → Rx
  | star : Rx → Rx

def Rx.nullable : Rx → Bool
  | .fail => false
  | .eps => true
  | .cls _ => false
  | .seq a b => a.nullable && b.nullable
  | .alt a b => a.nullable || b.nullable
  | .star _ => true

def Rx.deriv : Rx → Char → Rx
  | .fail, _ => .fail
  | .eps, _ => .fail
  | .cls p, c => if p c then .eps else .fail
  | .seq a b, c =>
    if a.nullable then .alt (.seq (a.deriv c) b) (b.deriv c)
    else .seq (a.deriv c) b
  | .alt a b, c => .alt (a.deriv c) (b.deriv c)
  | .star a, c => .seq (a.deriv c) (.star a)

/-- Whole-string acceptance. -/
def rxAccept (r : Rx) (s : List Char) : Bool :=
  (s.foldl Rx.deriv r).nullable

def rchar (c : Char) : Rx := .cls (fun x => x = c)

/-- Case-insensitive character (for regexes carrying the `i` flag; `c` is
given in lower case). -/
def rcharCI (c : Char) : Rx := .cls (fun x => x.toLower = c)

def rlit (s : String) : Rx := s.data.foldr (fun c acc => .seq (rchar c) acc) .eps

def rlitCI (s : String) : Rx := s.data.foldr (fun c acc => .seq (rcharCI c) acc) .eps

/-- The regex class `\s`. -/
def rws : Rx := .cls isWsChar

/-- The regex `\s+`. -/
def rwsPlus : Rx := .seq rws (.star rws)

/-- The regex `\s*`. -/
def rwsStar : Rx := .star rws

/-- The regex `.` (any character except a line terminator). -/
def rdot : Rx := .cls (fun c => c != '\n' && c != '\r')

/-- Truly any character (used for the unanchored `test` wrapping). -/
def rany : Rx := .cls (fun _ => true)

/-- Wrapping of `pattern.test(s)` for an unanchored pattern. -/
def unanch (r : Rx) : Rx := .seq (.star rany) (.seq r (.star rany))

/-- Wrapping of `pattern.test(s)` for a `^`-anchored pattern. -/
def anchStart (r : Rx) : Rx := .seq r (.star rany)

/-- The regex `/rm\s+(-rf|--recursive.*--force|--force.*--recursive)\s+[\/~]/i`
(the agent policy variant, routes.ts 569). -/
def rxRmAgent : Rx :=
  .seq (rlitCI "rm") (.seq rwsPlus (.seq
    (.alt (rlitCI "-rf")
      (.alt (.seq (rlitCI "--recursive") (.seq (.star rdot) (rlitCI "--force")))
            (.seq (rlitCI "--force") (.seq (.star rdot) (rlitCI "--recursive")))))
    (.seq rwsPlus (.cls (fun c => c = '/' || c = '~')))))

/-- The regex `/rm\s+(-rf|--recursive.*--force)\s+[\/~]/i` (the terminal policy variant,
routes.ts 362). -/
def rxRmTerminal : Rx :=
  .seq (rlitCI "rm") (.seq rwsPlus (.seq
    (.alt (rlitCI "-rf")
      (.seq (rlitCI "--recursive") (.seq (.star rdot) (rlitCI "--force"))))
    (.seq rwsPlus (.cls (fun c => c = '/' || c = '~')))))

/-- The regex `/sudo\s+rm/i`. -/
def rxSudoRm : Rx := .seq (rlitCI "sudo") (.seq rwsPlus (rlitCI "rm"))

/-- The regex `/mkfs/i`. -/
def rxMkfs : Rx := rlitCI "mkfs"

/-- The regex `/dd\s+if=.*of=\/dev/i`. -/
def rxDd : Rx :=
  .seq (rlitCI "dd") (.seq rwsPlus (.seq (rlitCI "if=")
    (.seq (.star rdot) (rlitCI "of=/dev"))))

/-- The fork-bomb regex (a colon function that recursively forks itself). -/
def rxForkBomb : Rx :=
  .seq (rlit ":()") (.seq rwsStar (.seq (rchar '\x7b') (.seq rwsStar
    (.seq (rlit ":|:") (.seq rwsStar (.seq (rchar '&') (.seq rwsStar
      (.seq (rchar '\x7d') (.seq rwsStar (rchar ';'))))))))))

/-- The regex `/>\s*\/dev\/(sda|hda|null)/i`. -/
def rxDevWrite : Rx :=
  .seq (rchar '>') (.seq rwsStar (.seq (rlitCI "/dev/")
    (.alt (rlitCI "sda") (.alt (rlitCI "hda") (rlitCI "null")))))

/-- The regex `/^(apt|apt-get|brew|yum|dnf|pacman|apk)\s/` (no `i` flag; anchored). -/
def rxPkgManager : Rx :=
  .seq (.alt (rlit "apt") (.alt (rlit "apt-get") (.alt (rlit "brew")
    (.alt (rlit "yum") (.alt (rlit "dnf") (.alt (rlit "pacman") (rlit "apk")))))))
    rws

/-- The agent `run_command` blocklist (routes.ts 568-575), each entry already
wrapped for `test`. -/
def blockedPatternsAgent : List Rx :=
  [unanch rxRmAgent, unanch rxSudoRm, unanch rxMkfs, unanch rxDd,
   unanch rxForkBomb, unanch rxDevWrite]

/-- The `/api/terminal/exec` blocklist (routes.ts 360-366). -/
def blockedPatternsTerminal : List Rx :=
  [anchStart rxPkgManager, unanch rxRmTerminal, unanch rxSudoRm,
   unanch rxMkfs, unanch rxDd]

/-- The `for (const pattern of blockedPatterns) if (pattern.test(command))`
check of the agent policy. -/
def agentBlockedTest (command : String) : Bool :=
  blockedPatternsAgent.any (fun r => rxAccept r command.data)

/-- Same check for the terminal policy. -/
def terminalBlockedTest (command : String) : Bool :=
  blockedPatternsTerminal.any (fun r => rxAccept r command.data)

/-! ## Filesystem state and Node `fs` primitives

The workspace filesystem is modelled as a finite map from absolute path
strings to file contents, plus the set of directories created so far.  The
handlers only consult `fs.existsSync` and perform `writeFileSync`,
`appendFileSync`, `unlinkSync`, `renameSync`, `copyFileSync` and a recursive
`mkdirSync`; those are the only primitives modelled.  (`mkdirSync` with
`recursive: true` is modelled as recording the single requested directory; the
implicit parent entries play no role in any claim.) -/

structure FS where
  files : List (String × String)
  dirs : List String
deriving DecidableEq

def FS.fileContent (fs : FS) (p : String) : Option String := fs.files.lookup p

def FS.isFile (fs : FS) (p : String) : Bool := (fs.fileContent p).isSome

def FS.isDir (fs : FS) (p : String) : Bool := fs.dirs.contains p

/-- Model of `fs.existsSync`. -/
def FS.existsPath (fs : FS) (p : String) : Bool := fs.isFile p || fs.isDir p

/-- Model of `fs.writeFileSync` (create or overwrite). -/
def FS.writeFile (fs : FS) (p c : String) : FS :=
  { fs with files := (p, c) :: fs.files.filter (fun e => e.1 ≠ p) }

/-- Model of `fs.unlinkSync` on an existing file. -/
def FS.removeFile (fs : FS) (p : String) : FS :=
  { fs with files := fs.files.filter (fun e => e.1 ≠ p) }

/-- Model of the recursive `fs.mkdirSync`. -/
def FS.mkDir (fs : FS) (p : String) : FS :=
  if fs.dirs.contains p then fs else { fs with dirs := p :: fs.dirs }

/-! ## The tool dispatcher (`executeTool`, routes.ts 508-704)

One-shot process execution (`execPromise`, a promisified
`child_process.exec`) is external to the repository; it is modelled as a
parameter `run : String → String → ExecOutcome` mapping a command and working
directory to its outcome.  A theorem that holds for every `run` therefore
holds however the operating system behaves — and in particular a result that
is independent of `run` shows that no process observation (hence no spawn)
influences it. -/

/-- The outcome of one `execPromise` call: fulfilled with captured streams, or
rejected with an error object carrying `message`, optional captured
`stdout`/`stderr`, the exit `code` when there is one, and whether the process
was killed (the shape of the error for timeouts and non-zero exits). -/
inductive ExecOutcome where
  | ok : String → String → ExecOutcome
  | err : String → Option String → Option String → Option Int → Bool → ExecOutcome
deriving DecidableEq

abbrev Runner := String → String → ExecOutcome

/-- A tool handler's result value: a plain string, or the `{stdout, stderr}`
record produced by `run_command`. -/
inductive RVal where
  | str : String → RVal
  | out : String → String → RVal
deriving DecidableEq

structure ToolResult where
  tool : String
  success : Bool
  result : Option RVal
  error : Option String
deriving DecidableEq

/-- Field access on the (already JSON-decoded) arguments object. -/
def getField : Json → String → Option Json
  | Json.obj fields, k => fields.lookup k
  | _, _ => none

/-- A `path`-like argument: the handlers pass it straight to `path.join`,
which throws a `TypeError` for any non-string value (including the `undefined`
of a missing property and the property access on a non-object `args`); that
exception is caught by `executeTool`'s outer `catch`. -/
def argStr (args : Json) (k : String) : Option String :=
  match getField args k with
  | some (Json.str s) => some s
  | _ => none

/-- A `content`-like argument used as `content || ""`: absent and falsy values
give the empty string, a string gives itself, and any other (truthy
non-string) value makes the subsequent `writeFileSync` throw — represented by
`none`.  (The falsy numbers `0`/`NaN` are conflated with the throwing numeric
case; no claim involves a numeric `content`.) -/
def argContent (args : Json) : Option String :=
  match getField args "content" with
  | none => some ""
  | some (Json.str s) => some s
  | some Json.null => some ""
  | some (Json.bool false) => some ""
  | some _ => none

/-- String coercion as performed by a template literal `${x}` for the values
relevant here (`search_files` interpolates its arguments into the grep
command).  Array/object coercion is simplified; no claim exercises it. -/
def jsTemplateStr : Option Json → String
  | some (Json.str s) => s
  | some (Json.num s) => s
  | some (Json.bool true) => "true"
  | some (Json.bool false) => "false"
  | some Json.null => "null"
  | some (Json.arr _) => ""
  | some (Json.obj _) => "[object Object]"
  | none => "undefined"

/-- Truthiness test deciding `fileType ?` and `cwd ?` (non-string truthy
values of `cwd` are simplified to the default; no claim supplies one). -/
def truthyStr : Option Json → Option String
  | some (Json.str s) => if s = "" then none else some s
  | _ => none

/-- The grep command constructed by the `search_files` handler
(routes.ts 644-646). -/
def grepCommand (pattern : String) (fileType : Option String) : String :=
  (match fileType with
   | some ft =>
     "grep -rn \x22" ++ pattern ++ "\x22 --include=\x22" ++ ft ++ "\x22 . 2>/dev/null "
   | none => "grep -rn \x22" ++ pattern ++ "\x22 . 2>/dev/null ") ++ "| head -50"

/-- A failure result for an exception reaching `executeTool`'s outer `catch`
(routes.ts 701-703); the carried message is the thrown `error.message`.  The
exact `TypeError` texts are not reproduced. -/
def thrownResult (t : String) : ToolResult := ⟨t, false, none, some "TypeError"⟩

def accessDenied (t : String) : ToolResult := ⟨t, false, none, some "Access denied"⟩

def notFound (t : String) : ToolResult := ⟨t, false, none, some "File not found"⟩

/-- The dispatcher `executeTool` (routes.ts 508-704).  `root` is `WORKSPACE_DIR`, `run` the
`execPromise` abstraction.  Returns the filesystem after the handler's side
effects together with the `ToolResult`; the Lean function being total is the
embedding of "never throws outward". -/
def executeTool (root : String) (run : Runner) (tc : ToolCall) (fs : FS) : FS × ToolResult :=
  if tc.tool = "create_file" then
    match argStr tc.args "path" with
    | none => (fs, thrownResult tc.tool)
    | some filePath =>
      let fullPath := pathJoin root filePath
      if ¬ strStartsWith fullPath root then (fs, accessDenied tc.tool)
      else
        -- parent directory creation happens before the content write, so a
        -- throwing content still leaves the directory created
        let dir := pathDirname fullPath
        let fs1 := if fs.existsPath dir then fs else fs.mkDir dir
        match argContent tc.args with
        | none => (fs1, thrownResult tc.tool)
        | some content =>
          (fs1.writeFile fullPath content,
           ⟨tc.tool, true, some (.str ("File created: " ++ filePath)), none⟩)
  else if tc.tool = "edit_file" then
    match argStr tc.args "path" with
    | none => (fs, thrownResult tc.tool)
    | some filePath =>
      let fullPath := pathJoin root filePath
      if ¬ strStartsWith fullPath root then (fs, accessDenied tc.tool)
      else if ¬ fs.existsPath fullPath then (fs, notFound tc.tool)
      else
        -- edit_file passes `content` with no `|| ""` default
        match getField tc.args "content" with
        | some (Json.str content) =>
          (fs.writeFile fullPath content,
           ⟨tc.tool, true, some (.str ("File updated: " ++ filePath)), none⟩)
        | _ => (fs, thrownResult tc.tool)
  else if tc.tool = "read_file" then
    match argStr tc.args "path" with
    | none => (fs, thrownResult tc.tool)
    | some filePath =>
      let fullPath := pathJoin root filePath
      if ¬ strStartsWith fullPath root then (fs, accessDenied tc.tool)
      else if ¬ fs.existsPath fullPath then (fs, notFound tc.tool)
      else
        match fs.fileContent fullPath with
        | some content => (fs, ⟨tc.tool, true, some (.str content), none⟩)
        | none => (fs, thrownResult tc.tool)  -- readFileSync on a directory throws
  else if tc.tool = "delete_file" then
    match argStr tc.args "path" with
    | none => (fs, thrownResult tc.tool)
    | some filePath =>
      let fullPath := pathJoin root filePath
      if ¬ strStartsWith fullPath root then (fs, accessDenied tc.tool)
      else if ¬ fs.existsPath fullPath then (fs, notFound tc.tool)
      else if fs.isFile fullPath then
        (fs.removeFile fullPath,
         ⟨tc.tool, true, some (.str ("File deleted: " ++ filePath)), none⟩)
      else (fs, thrownResult tc.tool)  -- unlinkSync on a directory throws
  else if tc.tool = "run_command" then
    match argStr tc.args "command" with
    | none => (fs, thrownResult tc.tool)
    | some command =>
      if agentBlockedTest command then
        (fs, ⟨tc.tool, false, none, some "Command blocked for safety"⟩)
      else
        let workDir :=
          match truthyStr (getField tc.args "cwd") with
          | some c => pathJoin root c
          | none => root
        match run command workDir with
        | .ok stdout stderr =>
          (fs, ⟨tc.tool, true, some (.out (strTake stdout 10000) (strTake stderr 5000)), none⟩)
        | .err message stdout stderr _ _ =>
          (fs, ⟨tc.tool, false,
            some (.out (strTake (stdout.getD "") 5000) (strTake (stderr.getD "") 3000)),
            some (strTake message 1000)⟩)
  else if tc.tool = "list_files" then
    -- buildFileTree + flattenTree: a read-only listing of the workspace; the
    -- exact indentation/sorting is irrelevant to every claim and simplified
    -- to the stored file paths.
    (fs, ⟨tc.tool, true,
      some (.str (String.intercalate "\n" (fs.files.map Prod.fst))), none⟩)
  else if tc.tool = "append_file" then
    match argStr tc.args "path" with
    | none => (fs, thrownResult tc.tool)
    | some filePath =>
      let fullPath := pathJoin root filePath
      if ¬ strStartsWith fullPath root then (fs, accessDenied tc.tool)
      else if ¬ fs.existsPath fullPath then
        let dir := pathDirname fullPath
        let fs1 := if fs.existsPath dir then fs else fs.mkDir dir
        match argContent tc.args with
        | none => (fs1, thrownResult tc.tool)
        | some content =>
          (fs1.writeFile fullPath content,
           ⟨tc.tool, true, some (.str ("Appended to: " ++ filePath)), none⟩)
      else
        match fs.fileContent fullPath with
        | some old =>
          match argContent tc.args with
          | none => (fs, thrownResult tc.tool)
          | some content =>
            (fs.writeFile fullPath (old ++ content),
             ⟨tc.tool, true, some (.str ("Appended to: " ++ filePath)), none⟩)
        | none => (fs, thrownResult tc.tool)  -- appendFileSync on a directory throws
  else if tc.tool = "search_files" then
    if tc.args.isNull then (fs, thrownResult tc.tool)  -- destructuring null throws
    else
      let pattern := jsTemplateStr (getField tc.args "pattern")
      let cmd := grepCommand pattern (truthyStr (getField tc.args "fileType"))
      match run cmd root with
      | .ok stdout _ =>
        (fs, ⟨tc.tool, true,
          some (.str (if stdout = "" then "No matches found" else stdout)), none⟩)
      | .err _ stdout _ _ _ =>
        (fs, ⟨tc.tool, true,
          some (.str (match stdout with
                      | some s => if s = "" then "No matches found" else s
                      | none => "No matches found")), none⟩)
  else if tc.tool = "mkdir" then
    match argStr tc.args "path" with
    | none => (fs, thrownResult tc.tool)
    | some dirPath =>
      let fullPath := pathJoin root dirPath
      if ¬ strStartsWith fullPath root then (fs, accessDenied tc.tool)
      else
        (fs.mkDir fullPath,
         ⟨tc.tool, true, some (.str ("Directory created: " ++ dirPath)), none⟩)
  else if tc.tool = "move_file" then
    match argStr tc.args "from", argStr tc.args "to" with
    | some fromRel, some toRel =>
      let fromPath := pathJoin root fromRel
      let toPath := pathJoin root toRel
      if ¬ strStartsWith fromPath root ∨ ¬ strStartsWith toPath root then
        (fs, accessDenied tc.tool)
      else if ¬ fs.existsPath fromPath then
        (fs, ⟨tc.tool, false, none, some "Source file not found"⟩)
      else
        match fs.fileContent fromPath with
        | some content =>
          if fs.isDir toPath then (fs, thrownResult tc.tool)  -- rename file onto dir throws
          else
            ((fs.removeFile fromPath).writeFile toPath content,
             ⟨tc.tool, true, some (.str ("Moved " ++ fromRel ++ " to " ++ toRel)), none⟩)
        | none =>
          -- directory rename: remodelled as renaming the directory entry
          -- (children paths are not tracked through renames; no claim uses it)
          if fs.existsPath toPath then (fs, thrownResult tc.tool)
          else
            ({ fs with dirs := toPath :: fs.dirs.filter (fun d => d ≠ fromPath) },
             ⟨tc.tool, true, some (.str ("Moved " ++ fromRel ++ " to " ++ toRel)), none⟩)
    | _, _ => (fs, thrownResult tc.tool)
  else if tc.tool = "copy_file" then
    match argStr tc.args "from", argStr tc.args "to" with
    | some fromRel, some toRel =>
      let fromPath := pathJoin root fromRel
      let toPath := pathJoin root toRel
      if ¬ strStartsWith fromPath root ∨ ¬ strStartsWith toPath root then
        (fs, accessDenied tc.tool)
      else if ¬ fs.existsPath fromPath then
        (fs, ⟨tc.tool, false, none, some "Source file not found"⟩)
      else
        match fs.fileContent fromPath with
        | some content =>
          if fs.isDir toPath then (fs, thrownResult tc.tool)  -- copyFileSync onto dir throws
          else
            (fs.writeFile toPath content,
             ⟨tc.tool, true, some (.str ("Copied " ++ fromRel ++ " to " ++ toRel)), none⟩)
        | none => (fs, thrownResult tc.tool)  -- copyFileSync of a directory throws
    | _, _ => (fs, thrownResult tc.tool)
  else
    (fs, ⟨tc.tool, false, none, some ("Unknown tool: " ++ tc.tool)⟩)

/-- The registered tool names (the cases of the switch). -/
def knownTools : List String :=
  ["create_file", "edit_file", "read_file", "delete_file", "run_command",
   "list_files", "append_file", "search_files", "mkdir", "move_file", "copy_file"]

/-! ## The agent turn orchestrator (routes.ts 899-906)

`for (const tool of tools) { const result = await executeTool(tool);
toolResults.push(result); }` — strictly sequential, one result per invocation,
in parse order. -/

def runTools (root : String) (run : Runner) : List ToolCall → FS → FS × List ToolResult
  | [], fs => (fs, [])
  | t :: ts, fs =>
    ((runTools root run ts (executeTool root run t fs).1).1,
     (executeTool root run t fs).2 :: (runTools root run ts (executeTool root run t fs).1).2)

/-! ## HTTP file endpoints (routes.ts 181-297)

Each endpoint resolves the request path against `WORKSPACE_DIR` and applies
the same bare `startsWith` check.  Only the response status and filesystem
effect are modelled (200 success, 400 missing parameter, 403 access denied,
404 not found, 409 conflict). -/

/-- Endpoint `POST /api/files/write` (routes.ts 181-211). -/
def apiFilesWrite (root : String) (filePath : Option String) (content : String)
    (createOnly : Bool) (fs : FS) : FS × Nat :=
  match filePath with
  | none => (fs, 400)
  | some p =>
    if p = "" then (fs, 400)  -- `if (!filePath)`: the empty string is falsy
    else
      let fullPath := pathJoin root p
      if ¬ strStartsWith fullPath root then (fs, 403)
      else if createOnly ∧ fs.existsPath fullPath then (fs, 409)
      else
        let dir := pathDirname fullPath
        let fs1 := if fs.existsPath dir then fs else fs.mkDir dir
        (fs1.writeFile fullPath content, 200)

/-- Endpoint `POST /api/files/mkdir` (routes.ts 214-240). -/
def apiFilesMkdir (root : String) (folderPath : Option String) (createOnly : Bool)
    (fs : FS) : FS × Nat :=
  match folderPath with
  | none => (fs, 400)
  | some p =>
    if p = "" then (fs, 400)
    else
      let fullPath := pathJoin root p
      if ¬ strStartsWith fullPath root then (fs, 403)
      else if fs.existsPath fullPath then
        (if createOnly then (fs, 409) else (fs, 200))
      else (fs.mkDir fullPath, 200)

/-- Endpoint `DELETE /api/files` (routes.ts 243-271). -/
def apiFilesDelete (root : String) (filePath : Option String) (fs : FS) : FS × Nat :=
  match filePath with
  | none => (fs, 400)
  | some p =>
    if p = "" then (fs, 400)
    else
      let fullPath := pathJoin root p
      if ¬ strStartsWith fullPath root then (fs, 403)
      else if ¬ fs.existsPath fullPath then (fs, 404)
      else if fs.isDir fullPath then
        ({ fs with dirs := fs.dirs.filter (fun d => d ≠ fullPath),
                   files := fs.files.filter (fun e => ¬ strStartsWith e.1 fullPath) }, 200)
      else (fs.removeFile fullPath, 200)

/-- Endpoint `POST /api/files/rename` (routes.ts 274-297). -/
def apiFilesRename (root : String) (oldPath newPath : Option String) (fs : FS) : FS × Nat :=
  match oldPath, newPath with
  | some op, some np =>
    if op = "" ∨ np = "" then (fs, 400)
    else
      let fullOldPath := pathJoin root op
      let fullNewPath := pathJoin root np
      if ¬ strStartsWith fullOldPath root ∨ ¬ strStartsWith fullNewPath root then (fs, 403)
      else if ¬ fs.existsPath fullOldPath then (fs, 404)
      else
        match fs.fileContent fullOldPath with
        | some content => ((fs.removeFile fullOldPath).writeFile fullNewPath content, 200)
        | none =>
          ({ fs with dirs := fullNewPath :: fs.dirs.filter (fun d => d ≠ fullOldPath) }, 200)
  | _, _ => (fs, 400)

/-! ## The one-shot terminal endpoint (`POST /api/terminal/exec`,
routes.ts 350-405)

The response body is `{success, stdout, stderr, code?}` — these four fields
and no others (in particular, there is no timed-out indicator).  On a rejected
`execPromise` the `catch` block returns `success: false` with
`error.stdout || ""`, `error.stderr || error.message` and `error.code`. -/

structure ExecResponse where
  success : Bool
  stdout : String
  stderr : String
  code : Option Int
deriving DecidableEq

def terminalExec (root : String) (run : Runner) (command : String)
    (cwd : Option String) : ExecResponse :=
  if command = "" then ⟨false, "", "Command is required", none⟩  -- 400 path
  else if terminalBlockedTest command then
    ⟨false, "",
     "This command is not available in this environment.\nUse pip for Python packages or npm for Node.js packages.",
     some 1⟩
  else
    let workDir := match cwd with
      | some c => if c = "" then root else pathJoin root c
      | none => root
    match run command workDir with
    | .ok stdout stderr => ⟨true, stdout, stderr, none⟩
    | .err message stdout stderr code _ =>
      ⟨false, stdout.getD "",
       (match stderr with
        | some s => if s = "" then message else s
        | none => message),
       code⟩

/-! ## PTY session teardown (routes.ts 1056-1105)

Per connection the server registers three observers over the same session:
`ptyProcess.onExit` (send the exit message if the socket is still open, then
delete the registry entry) and `ws.on("close")`/`ws.on("error")` (kill the
process, then delete the registry entry).  The registry is a
`Map<string, IPty>`; `Map.delete` of an absent key is a no-op, and killing an
already-exited process is a no-op signal.  The state of one session's
resources is modelled explicitly; the registry as a membership map. -/

structure PtyState where
  registry : String → Bool
  procAlive : Bool
  wsOpen : Bool
  exitMsgSent : Bool

/-- The `ptyProcess.onExit` handler (routes.ts 1063-1068): the process has exited;
notify the transport when it is still open, then remove the session entry. -/
def onProcExit (sid : String) (st : PtyState) : PtyState :=
  { registry := fun x => if x = sid then false else st.registry x,
    procAlive := false,
    wsOpen := st.wsOpen,
    exitMsgSent := st.exitMsgSent || st.wsOpen }

/-- The `ws.on("close")` handler (routes.ts 1096-1099) — identical to the
`ws.on("error")` handler (1101-1105) as far as session resources are
concerned: kill the process, remove the session entry. -/
def onWsClose (sid : String) (st : PtyState) : PtyState :=
  { registry := fun x => if x = sid then false else st.registry x,
    procAlive := false,
    wsOpen := false,
    exitMsgSent := st.exitMsgSent }

/-! ## Layout decompositions of model text

For the parser theorems a model text is presented as alternating free
segments and tool blocks.  `Blk` records the whitespace after `<tool`, the
tool name and the raw JSON body; `blkText` is the exact text the block
occupies (the regex `match[0]`). -/

structure Blk where
  ws : List Char
  name : List Char
  body : List Char

def blkText (b : Blk) : List Char :=
  startTag ++ b.ws ++ nameEq ++ b.name ++ quotGt ++ b.body ++ closerTag

/-- Well-formedness of a block: non-empty whitespace run, non-empty name
containing no quote, body containing no `</tool>` (exactly the conditions
under which the regex match starting at the block matches the block and
nothing else). -/
def goodBlk (b : Blk) : Bool :=
  !b.ws.isEmpty && b.ws.all isWsChar
    && !b.name.isEmpty && b.name.all (fun c => c != '\x22')
    && !(containsPat closerTag b.body)

/-- A free segment: no occurrence of the opening marker `<tool`, so no regex
match can start inside it. -/
def goodSeg (s : List Char) : Bool := !(containsPat startTag s)

/-- Text of a layout: alternating segments and blocks, ending in `tail`. -/
def layoutText : List (List Char × Blk) → List Char → List Char
  | [], tail => tail
  | (s, b) :: L, tail => s ++ blkText b ++ layoutText L tail

/-- JSON decoding of a block body exactly as the parser performs it. -/
def validJson (b : Blk) : Option Json := jsonParse (trimChars b.body)

/-- The invocations the parser extracts from a layout: the JSON-valid blocks,
in textual order. -/
def validCalls : List (List Char × Blk) → List ToolCall
  | [] => []
  | (_, b) :: L =>
    match validJson b with
    | some v => ⟨⟨b.name⟩, v⟩ :: validCalls L
    | none => validCalls L

/-- The display text before trimming: the layout with each JSON-valid block's
span removed. -/
def residue : List (List Char × Blk) → List Char → List Char
  | [], tail => tail
  | (s, b) :: L, tail =>
    match validJson b with
    | some _ => s ++ residue L tail
    | none => s ++ blkText b ++ residue L tail

/-- Side conditions of a layout. -/
def goodLayout (L : List (List Char × Blk)) (tail : List Char) : Prop :=
  (∀ p ∈ L, goodSeg p.1 = true ∧ goodBlk p.2 = true) ∧ goodSeg tail = true

/-- The first-occurrence conditions needed by the display-text replacement
steps: when the loop removes a JSON-valid block's span from the evolving text,
the first occurrence of that span is the block's own position (`res` is the
already-scanned portion of the display text). -/
def goodTrace : List Char → List (List Char × Blk) → List Char → Prop
  | _, [], _ => True
  | res, (s, b) :: L, tail =>
    match validJson b with
    | some _ =>
      splitOnFirst (blkText b) (res ++ (s ++ blkText b ++ layoutText L tail))
          = some (res ++ s, layoutText L tail)
        ∧ goodTrace (res ++ s) L tail
    | none => goodTrace ((res ++ s) ++ blkText b) L tail

/-- The result text of the `search_files` handler as a function of the grep
outcome (routes.ts 648-657): both the fulfilled and the rejected branch
return success, mapping empty or missing captured output to
"No matches found". -/
def searchResultText : ExecOutcome → String
  | .ok stdout _ => if stdout = "" then "No matches found" else stdout
  | .err _ stdout _ _ _ =>
    match stdout with
    | some s => if s = "" then "No matches found" else s
    | none => "No matches found"


/-- A segment containing no `<` at all: removal of block spans can then never
juxtapose fragments into a new `<tool` marker (the failure mode of parser
idempotence exhibited by the counterexample). -/
def segNoLt (s : List Char) : Bool := s.all (fun c => c != '<')

/-- The layout left in the display text after one parse: the JSON-invalid
blocks, with the segments around removed blocks merged. -/
def invLayout : List (List Char × Blk) → List Char → List (List Char × Blk) × List Char
  | [], tail => ([], tail)
  | (s, b) :: L, tail =>
    match validJson b with
    | none => ((s, b) :: (invLayout L tail).1, (invLayout L tail).2)
    | some _ =>
      match invLayout L tail with
      | ([], t2) => ([], s ++ t2)
      | ((s2, b2) :: L2, t2) => ((s ++ s2, b2) :: L2, t2)

/-! ## Basic lemmas about the string utilities -/

/-! ## Helper lemmas -/

lemma stripLit_self (p r : List Char) : stripLit p (p ++ r) = some r := by
  induction p with
  | nil => simp [stripLit]
  | cons c cs ih => simp [stripLit, ih]

lemma containsPat_nil (y : List Char) : containsPat [] y = true := by
  cases y <;> simp [containsPat, stripLit]

/-- A literal occurs in any list in which it appears contiguously. -/
lemma containsPat_of_split (pat x y : List Char) : containsPat pat (x ++ pat ++ y) = true := by
  induction x with
  | nil =>
    cases pat with
    | nil => simpa using containsPat_nil y
    | cons p ps =>
      have h : stripLit (p :: ps) ((p :: ps) ++ y) = some y := stripLit_self _ _
      simp only [List.nil_append, List.cons_append, containsPat]
      simp only [List.cons_append] at h
      simp [h]
  | cons c cs ih =>
    simp only [List.cons_append, containsPat]
    simp only [List.append_assoc] at ih ⊢
    simp [ih]

/-- C4: dispatcher totality — `executeTool` is a total function (the embedding
itself: every internal exception of the source is modelled as a returned
failure result), and for every invocation whose name is not in the tool
registry it returns a failed `ToolResult` whose error message contains the
unknown name, leaving the filesystem untouched, for every runner. -/
theorem c4_dispatcher_totality (root : String) (run : Runner) (name : String)
    (args : Json) (fs : FS) (h : ¬ name ∈ knownTools) :
    executeTool root run ⟨name, args⟩ fs
      = (fs, ⟨name, false, none, some ("Unknown tool: " ++ name)⟩)
    ∧ strContains ("Unknown tool: " ++ name) name = true := by
  simp only [knownTools, List.mem_cons, List.not_mem_nil, or_false, not_or] at h
  obtain ⟨h1, h2, h3, h4, h5, h6, h7, h8, h9, h10, h11⟩ := h
  refine ⟨?_, ?_⟩
  · simp [executeTool, h1, h2, h3, h4, h5, h6, h7, h8, h9, h10, h11]
  · have : ("Unknown tool: " ++ name).data = "Unknown tool: ".data ++ name.data ++ [] := by
      simp
    rw [strContains, this]
    exact containsPat_of_split _ _ _

theorem c4_witness :
    (¬ "frobnicate" ∈ knownTools)
    ∧ (executeTool "/w" (fun _ _ => ExecOutcome.ok "" "") ⟨"frobnicate", Json.null⟩ ⟨[], []⟩
        = (⟨[], []⟩, ⟨"frobnicate", false, none, some "Unknown tool: frobnicate"⟩))
    ∧ strContains "Unknown tool: frobnicate" "frobnicate" = true := by
  have h : ¬ "frobnicate" ∈ knownTools := by decide
  have := c4_dispatcher_totality "/w" (fun _ _ => ExecOutcome.ok "" "") "frobnicate" Json.null ⟨[], []⟩ h
  exact ⟨h, this.1, this.2⟩

/-- C5: blocked command — for every `run_command` invocation whose command
string matches a blocked pattern of the agent policy, `executeTool` returns
`success = false` with the explanatory safety message
"Command blocked for safety" (which contains "blocked"), the filesystem is
unchanged, and the result is the same for every runner `run` — i.e. no
process observation enters the result, so no process is spawned.  The witness
instantiates the fixed command "sudo rm -rf /". -/
theorem c5_blocked_command (root : String) (run : Runner) (args : Json) (fs : FS)
    (command : String) (hc : argStr args "command" = some command)
    (hb : agentBlockedTest command = true) :
    executeTool root run ⟨"run_command", args⟩ fs
      = (fs, ⟨"run_command", false, none, some "Command blocked for safety"⟩)
    ∧ strContains "Command blocked for safety" "blocked" = true := by
  refine ⟨?_, by decide⟩
  simp [executeTool, hc, hb]

theorem c5_witness :
    (argStr (Json.obj [("command", Json.str "sudo rm -rf /")]) "command" = some "sudo rm -rf /")
    ∧ (agentBlockedTest "sudo rm -rf /" = true)
    ∧ (executeTool "/w" (fun _ _ => ExecOutcome.ok "" "") ⟨"run_command", Json.obj [("command", Json.str "sudo rm -rf /")]⟩ ⟨[], []⟩
        = (⟨[], []⟩, ⟨"run_command", false, none, some "Command blocked for safety"⟩)) := by
  have h1 : argStr (Json.obj [("command", Json.str "sudo rm -rf /")]) "command" = some "sudo rm -rf /" := rfl
  have h2 : agentBlockedTest "sudo rm -rf /" = true := by decide
  exact ⟨h1, h2,
    (c5_blocked_command "/w" (fun _ _ => ExecOutcome.ok "" "") _ ⟨[], []⟩ "sudo rm -rf /" h1 h2).1⟩

/-- C9: the `search_files` tool never reports failure — for every argument
object and every runner outcome (including a non-zero grep exit) the result
has `success = true` and no filesystem change; empty or absent captured
output maps to the string "No matches found"; and the constructed grep
command ends in the 50-line cap `| head -50`. -/
theorem c9_search_never_fails (root : String) (run : Runner) (args : Json) (fs : FS)
    (hn : args.isNull = false) :
    (executeTool root run ⟨"search_files", args⟩ fs
      = (fs, ⟨"search_files", true,
          some (.str (searchResultText
            (run (grepCommand (jsTemplateStr (getField args "pattern"))
                              (truthyStr (getField args "fileType"))) root))), none⟩))
    ∧ (∀ stderr, searchResultText (ExecOutcome.ok "" stderr) = "No matches found")
    ∧ (∀ m se co k, searchResultText (ExecOutcome.err m none se co k) = "No matches found")
    ∧ (∀ m se co k, searchResultText (ExecOutcome.err m (some "") se co k) = "No matches found")
    ∧ (∀ pat ft, ∃ pre, grepCommand pat ft = pre ++ "| head -50") := by
  refine ⟨?_, by simp [searchResultText], by simp [searchResultText], by simp [searchResultText], ?_⟩
  · cases hout : run (grepCommand (jsTemplateStr (getField args "pattern"))
                                  (truthyStr (getField args "fileType"))) root with
    | ok s e => simp [executeTool, hn, hout, searchResultText]
    | err m so se co k =>
      cases so <;> simp [executeTool, hn, hout, searchResultText]
  · intro pat ft
    cases ft <;> exact ⟨_, rfl⟩

theorem c9_witness :
    ((Json.obj [("pattern", Json.str "TODO")]).isNull = false)
    ∧ (executeTool "/w" (fun _ _ => ExecOutcome.err "grep exited 1" (some "") none (some 1) false)
        ⟨"search_files", Json.obj [("pattern", Json.str "TODO")]⟩ ⟨[], []⟩
        = (⟨[], []⟩, ⟨"search_files", true, some (.str "No matches found"), none⟩)) := by
  have h :=
    (c9_search_never_fails "/w"
      (fun _ _ => ExecOutcome.err "grep exited 1" (some "") none (some 1) false)
      (Json.obj [("pattern", Json.str "TODO")]) ⟨[], []⟩ rfl).1
  exact ⟨rfl, h⟩

lemma FS.fileContent_writeFile (fs : FS) (p c : String) :
    (fs.writeFile p c).fileContent p = some c := by
  simp [FS.writeFile, FS.fileContent, List.lookup]

/-- C10: `move_file` and `copy_file` check existence only of the source —
when both paths pass the guard, the source exists and the destination
already names an existing file, the operation succeeds silently and the
destination's content afterwards is the source's content (an overwrite, with
no existence check on the destination). -/
theorem c10_move_copy_overwrite (root : String) (run : Runner) (fs : FS)
    (fromRel toRel cFrom cTo : String)
    (hg1 : strStartsWith (pathJoin root fromRel) root = true)
    (hg2 : strStartsWith (pathJoin root toRel) root = true)
    (hf : fs.fileContent (pathJoin root fromRel) = some cFrom)
    (ht : fs.fileContent (pathJoin root toRel) = some cTo)
    (hd : fs.isDir (pathJoin root toRel) = false) :
    (executeTool root run
        ⟨"move_file", Json.obj [("from", Json.str fromRel), ("to", Json.str toRel)]⟩ fs
      = ((fs.removeFile (pathJoin root fromRel)).writeFile (pathJoin root toRel) cFrom,
         ⟨"move_file", true, some (.str ("Moved " ++ fromRel ++ " to " ++ toRel)), none⟩))
    ∧ (executeTool root run
        ⟨"copy_file", Json.obj [("from", Json.str fromRel), ("to", Json.str toRel)]⟩ fs
      = (fs.writeFile (pathJoin root toRel) cFrom,
         ⟨"copy_file", true, some (.str ("Copied " ++ fromRel ++ " to " ++ toRel)), none⟩))
    ∧ (((fs.removeFile (pathJoin root fromRel)).writeFile (pathJoin root toRel) cFrom).fileContent
        (pathJoin root toRel) = some cFrom)
    ∧ ((fs.writeFile (pathJoin root toRel) cFrom).fileContent (pathJoin root toRel) = some cFrom) := by
  refine ⟨?_, ?_, FS.fileContent_writeFile _ _ _, FS.fileContent_writeFile _ _ _⟩ <;>
    simp [executeTool, argStr, getField, List.lookup, FS.existsPath, FS.isFile, hf, ht, hd, hg1, hg2]

theorem c10_witness :
    (strStartsWith (pathJoin "/w" "a.txt") "/w" = true)
    ∧ (strStartsWith (pathJoin "/w" "b.txt") "/w" = true)
    ∧ ((FS.mk [("/w/a.txt", "SRC"), ("/w/b.txt", "OLD")] []).fileContent "/w/a.txt" = some "SRC")
    ∧ ((FS.mk [("/w/a.txt", "SRC"), ("/w/b.txt", "OLD")] []).fileContent "/w/b.txt" = some "OLD")
    ∧ (executeTool "/w" (fun _ _ => ExecOutcome.ok "" "")
        ⟨"copy_file", Json.obj [("from", Json.str "a.txt"), ("to", Json.str "b.txt")]⟩
        (FS.mk [("/w/a.txt", "SRC"), ("/w/b.txt", "OLD")] [])
        = ((FS.mk [("/w/a.txt", "SRC"), ("/w/b.txt", "OLD")] []).writeFile "/w/b.txt" "SRC",
           ⟨"copy_file", true, some (.str "Copied a.txt to b.txt"), none⟩)) := by
  have h := c10_move_copy_overwrite "/w" (fun _ _ => ExecOutcome.ok "" "")
    (FS.mk [("/w/a.txt", "SRC"), ("/w/b.txt", "OLD")] []) "a.txt" "b.txt" "SRC" "OLD"
    (by decide) (by decide) (by decide) (by decide) (by decide)
  refine ⟨by decide, by decide, by decide, by decide, ?_⟩
  have h2 := h.2.1
  simpa using h2

/-- C8: session teardown idempotence — if the process-exit handler and the
transport-close handler both fire, in either order, the session's resources
(registry entry, process) end in the single-teardown state: the entry is
removed exactly once, the second handler is a no-op on the resources, and —
both handlers being total functions of the state — no error is raised against
the already-removed entry; entries of other sessions are untouched. -/
theorem c8_teardown_idempotent (sid : String) (st : PtyState) :
    ((onWsClose sid (onProcExit sid st)).registry = (onProcExit sid st).registry
      ∧ (onWsClose sid (onProcExit sid st)).procAlive = (onProcExit sid st).procAlive)
    ∧ ((onProcExit sid (onWsClose sid st)).registry = (onWsClose sid st).registry
      ∧ (onProcExit sid (onWsClose sid st)).procAlive = (onWsClose sid st).procAlive)
    ∧ (onProcExit sid st).registry sid = false
    ∧ (onWsClose sid st).registry sid = false
    ∧ (∀ x, x ≠ sid → (onProcExit sid st).registry x = st.registry x
        ∧ (onWsClose sid st).registry x = st.registry x) := by
  refine ⟨⟨?_, rfl⟩, ⟨?_, rfl⟩, by simp [onProcExit], by simp [onWsClose], ?_⟩
  · funext x
    by_cases hx : x = sid <;> simp [onProcExit, onWsClose, hx]
  · funext x
    by_cases hx : x = sid <;> simp [onProcExit, onWsClose, hx]
  · intro x hx
    simp [onProcExit, onWsClose, hx]

/-- C6 counterexample: the claim asserts the returned record carries
`timedOut=true` on timeout.  The response type of the endpoint
(routes.ts 392-404) has only `success`/`stdout`/`stderr`/`code`; a timed-out
command (runner rejects with `killed = true`) and an externally killed,
not-timed-out command (identical error but `killed = false`) produce the
*identical* response, so no function of the response can report `timedOut`,
while the two runner outcomes differ.  Captured output is preserved and
`success` is `false`, but the timeout indicator required by the claim does not
exist. -/
theorem c6_runner_cex :
    (terminalExec "/w" (fun _ _ => ExecOutcome.err "boom" (some "partial") (some "") none true)
        "sleep 999" none
      = terminalExec "/w" (fun _ _ => ExecOutcome.err "boom" (some "partial") (some "") none false)
        "sleep 999" none)
    ∧ ((fun _ _ => ExecOutcome.err "boom" (some "partial") (some "") none true : Runner)
          "sleep 999" "/w"
        ≠ (fun _ _ => ExecOutcome.err "boom" (some "partial") (some "") none false : Runner)
          "sleep 999" "/w")
    ∧ (terminalExec "/w" (fun _ _ => ExecOutcome.err "boom" (some "partial") (some "") none true)
        "sleep 999" none).success = false
    ∧ (terminalExec "/w" (fun _ _ => ExecOutcome.err "boom" (some "partial") (some "") none true)
        "sleep 999" none).stdout = "partial" := by
  refine ⟨by decide, by decide, by decide, by decide⟩

/-- C6 amended: on every rejected execution (timeout, non-zero exit, spawn
failure — the runner outcome is universally quantified over all of them) the
endpoint and the agent `run_command` handler return `success = false` with the
captured output (empty when absent) and the error message, and never raise;
the response does not distinguish a timeout (no `timedOut` field exists). -/
theorem c6_runner_amended (root cmd : String) (m : String) (so se : Option String)
    (co : Option Int) (k : Bool) (run : Runner)
    (hc : ¬ cmd = "") (hb : terminalBlockedTest cmd = false)
    (hr : run cmd root = ExecOutcome.err m so se co k) :
    (terminalExec root run cmd none
      = ⟨false, so.getD "",
         (match se with | some s => if s = "" then m else s | none => m), co⟩)
    ∧ (∀ args fs, argStr args "command" = some cmd →
        truthyStr (getField args "cwd") = none →
        agentBlockedTest cmd = false →
        executeTool root run ⟨"run_command", args⟩ fs
          = (fs, ⟨"run_command", false,
              some (.out (strTake (so.getD "") 5000) (strTake (se.getD "") 3000)),
              some (strTake m 1000)⟩)) := by
  constructor
  · cases se <;> simp [terminalExec, hc, hb, hr]
  · intro args fs hcmd hcwd hab
    simp [executeTool, hcmd, hcwd, hab, hr]

theorem c6_runner_witness :
    (¬ "node app.js" = "")
    ∧ (terminalBlockedTest "node app.js" = false)
    ∧ ((fun _ _ => ExecOutcome.err "Command failed" (some "out so far") none (some 1) true : Runner)
        "node app.js" "/w" = ExecOutcome.err "Command failed" (some "out so far") none (some 1) true)
    ∧ (terminalExec "/w"
        (fun _ _ => ExecOutcome.err "Command failed" (some "out so far") none (some 1) true)
        "node app.js" none
      = ⟨false, "out so far", "Command failed", some 1⟩) := by
  have h1 : ¬ "node app.js" = "" := by decide
  have h2 : terminalBlockedTest "node app.js" = false := by decide
  have h := c6_runner_amended "/w" "node app.js" "Command failed" (some "out so far") none
    (some 1) true (fun _ _ => ExecOutcome.err "Command failed" (some "out so far") none (some 1) true)
    h1 h2 rfl
  exact ⟨h1, h2, rfl, h.1⟩

/-- C1 counterexample: the code's check is
`path.join(root, p).startsWith(root)` — a bare string-prefix test with no
required following separator.  The relative path `../workspacex/pwn` resolves
to `/home/runner/workspacex/pwn`, which escapes the workspace root
`/home/runner/workspace` (it neither equals the root nor extends it past a
separator) yet passes the prefix test; `create_file` then mutates the
filesystem outside the root and reports success, contradicting the claimed
confinement invariant. -/
theorem c1_path_confinement_cex :
    (pathJoin "/home/runner/workspace" "../workspacex/pwn" = "/home/runner/workspacex/pwn")
    ∧ (strStartsWith "/home/runner/workspacex/pwn" "/home/runner/workspace" = true)
    ∧ ¬ ("/home/runner/workspacex/pwn" = "/home/runner/workspace"
         ∨ strStartsWith "/home/runner/workspacex/pwn" ("/home/runner/workspace" ++ "/") = true)
    ∧ (executeTool "/home/runner/workspace" (fun _ _ => ExecOutcome.ok "" "")
        ⟨"create_file",
         Json.obj [("path", Json.str "../workspacex/pwn"), ("content", Json.str "owned")]⟩
        ⟨[], []⟩).2.success = true
    ∧ ((executeTool "/home/runner/workspace" (fun _ _ => ExecOutcome.ok "" "")
        ⟨"create_file",
         Json.obj [("path", Json.str "../workspacex/pwn"), ("content", Json.str "owned")]⟩
        ⟨[], []⟩).1.fileContent "/home/runner/workspacex/pwn" = some "owned")
    ∧ ((executeTool "/home/runner/workspace" (fun _ _ => ExecOutcome.ok "" "")
        ⟨"create_file",
         Json.obj [("path", Json.str "../workspacex/pwn"), ("content", Json.str "owned")]⟩
        ⟨[], []⟩).1 ≠ ⟨[], []⟩) := by
  refine ⟨by decide, by decide, by decide, by decide, by decide, by decide⟩

/-- C1 amended: the guard actually enforced is the bare string-prefix check —
for every relative path whose resolution fails
`(pathJoin root p).startsWith(root)`, each file-mutating tool handler and each
file HTTP endpoint returns Access denied (HTTP 403) and leaves the filesystem
unchanged.  (Paths that escape into a sibling directory whose name extends the
root still pass, as the counterexample shows, so the separator-or-equality
version claimed does not hold.) -/
theorem c1_path_confinement_amended (root rel other content : String) (run : Runner) (fs : FS)
    (createOnly : Bool)
    (hg : strStartsWith (pathJoin root rel) root = false)
    (hrel : ¬ rel = "") (hother : ¬ other = "") :
    (executeTool root run
        ⟨"create_file", Json.obj [("path", Json.str rel), ("content", Json.str content)]⟩ fs
      = (fs, accessDenied "create_file"))
    ∧ (executeTool root run
        ⟨"edit_file", Json.obj [("path", Json.str rel), ("content", Json.str content)]⟩ fs
      = (fs, accessDenied "edit_file"))
    ∧ (executeTool root run
        ⟨"append_file", Json.obj [("path", Json.str rel), ("content", Json.str content)]⟩ fs
      = (fs, accessDenied "append_file"))
    ∧ (executeTool root run ⟨"delete_file", Json.obj [("path", Json.str rel)]⟩ fs
      = (fs, accessDenied "delete_file"))
    ∧ (executeTool root run ⟨"mkdir", Json.obj [("path", Json.str rel)]⟩ fs
      = (fs, accessDenied "mkdir"))
    ∧ (executeTool root run
        ⟨"move_file", Json.obj [("from", Json.str rel), ("to", Json.str other)]⟩ fs
      = (fs, accessDenied "move_file"))
    ∧ (executeTool root run
        ⟨"move_file", Json.obj [("from", Json.str other), ("to", Json.str rel)]⟩ fs
      = (fs, accessDenied "move_file"))
    ∧ (executeTool root run
        ⟨"copy_file", Json.obj [("from", Json.str rel), ("to", Json.str other)]⟩ fs
      = (fs, accessDenied "copy_file"))
    ∧ (executeTool root run
        ⟨"copy_file", Json.obj [("from", Json.str other), ("to", Json.str rel)]⟩ fs
      = (fs, accessDenied "copy_file"))
    ∧ (apiFilesWrite root (some rel) content createOnly fs = (fs, 403))
    ∧ (apiFilesMkdir root (some rel) createOnly fs = (fs, 403))
    ∧ (apiFilesDelete root (some rel) fs = (fs, 403))
    ∧ (apiFilesRename root (some rel) (some other) fs = (fs, 403))
    ∧ (apiFilesRename root (some other) (some rel) fs = (fs, 403)) := by
  refine ⟨?_, ?_, ?_, ?_, ?_, ?_, ?_, ?_, ?_, ?_, ?_, ?_, ?_, ?_⟩ <;>
    simp [executeTool, apiFilesWrite, apiFilesMkdir, apiFilesDelete, apiFilesRename,
          argStr, getField, List.lookup, hg, hrel, hother]

theorem c1_path_confinement_witness :
    (strStartsWith (pathJoin "/w" "../x") "/w" = false)
    ∧ (¬ "../x" = "") ∧ (¬ "ok.txt" = "")
    ∧ (executeTool "/w" (fun _ _ => ExecOutcome.ok "" "")
        ⟨"create_file", Json.obj [("path", Json.str "../x"), ("content", Json.str "c")]⟩
        ⟨[], []⟩
      = (⟨[], []⟩, accessDenied "create_file"))
    ∧ (apiFilesWrite "/w" (some "../x") "c" false ⟨[], []⟩ = (⟨[], []⟩, 403)) := by
  have h := c1_path_confinement_amended "/w" "../x" "ok.txt" "c"
    (fun _ _ => ExecOutcome.ok "" "") ⟨[], []⟩ false (by decide) (by decide) (by decide)
  exact ⟨by decide, by decide, by decide, h.1, h.2.2.2.2.2.2.2.2.2.1⟩

lemma stripLit_some {p cs r : List Char} (h : stripLit p cs = some r) : cs = p ++ r := by
  induction p generalizing cs with
  | nil => simpa [stripLit] using h
  | cons a ps ih =>
    cases cs with
    | nil => simp [stripLit] at h
    | cons c cs' =>
      by_cases hac : a = c
      · subst hac
        simp only [stripLit, if_pos rfl] at h
        simpa using ih h
      · simp [stripLit, hac] at h

/-- No occurrence of `pat` can start strictly inside the left part `t` of
`t ++ pat ++ r` when `pat`'s first character occurs nowhere else in `pat` and
`pat` does not occur in `t`. -/
lemma noPrefMid (c0 : Char) (pt t r : List Char)
    (hc : c0 ∉ pt) (ht : containsPat (c0 :: pt) t = false) (hne : t ≠ []) :
    stripLit (c0 :: pt) (t ++ (c0 :: pt) ++ r) = none := by
  cases t with
  | nil => exact absurd rfl hne
  | cons c t' =>
    cases hs : stripLit (c0 :: pt) ((c :: t') ++ (c0 :: pt) ++ r) with
    | none => rfl
    | some z =>
      exfalso
      have heq := stripLit_some hs
      simp only [List.cons_append, List.append_assoc, List.cons.injEq] at heq
      obtain ⟨hc0, htl⟩ := heq
      subst hc0
      -- htl : t' ++ c :: (pt ++ r) = pt ++ z  (with c the head of pat)
      by_cases hlen : pt.length ≤ t'.length
      · have h1 : (t' ++ c :: (pt ++ r)).take pt.length = t'.take pt.length :=
          List.take_append_of_le_length hlen
        have h2 : (pt ++ z).take pt.length = pt := by
          rw [List.take_append_of_le_length (le_refl _), List.take_length]
        have hpt : t'.take pt.length = pt := by
          have h3 := congrArg (List.take pt.length) htl
          rw [h1, h2] at h3
          exact h3
        have hsplit : t' = pt ++ t'.drop pt.length := by
          conv_lhs => rw [← List.take_append_drop pt.length t']
          rw [hpt]
        have hcontr := containsPat_of_split (c :: pt) [] (t'.drop pt.length)
        rw [List.nil_append, List.cons_append, ← hsplit] at hcontr
        rw [ht] at hcontr
        exact Bool.false_ne_true hcontr
      · push_neg at hlen
        have h1 : (t' ++ c :: (pt ++ r)).take (t'.length + 1) = t' ++ [c] := by
          rw [List.take_append_eq_append_take, List.take_of_length_le (Nat.le_succ _)]
          simp
        have h2 : (pt ++ z).take (t'.length + 1) = pt.take (t'.length + 1) :=
          List.take_append_of_le_length hlen
        have h3 : t' ++ [c] = pt.take (t'.length + 1) := by rw [← h1, htl, h2]
        have hmem : c ∈ pt.take (t'.length + 1) := by rw [← h3]; simp
        exact hc (List.take_subset _ _ hmem)

lemma containsPat_tail {pat : List Char} {c : Char} {cs : List Char}
    (h : containsPat pat (c :: cs) = false) : containsPat pat cs = false := by
  have := congrArg (fun b => b) h
  simp only [containsPat, Bool.or_eq_false_iff] at h
  exact h.2

/-- Evaluation of `splitOnFirst` on a clean decomposition: finds exactly the marked
occurrence. -/
lemma splitOnFirst_clean (c0 : Char) (pt t r : List Char)
    (hc : c0 ∉ pt) (ht : containsPat (c0 :: pt) t = false) :
    splitOnFirst (c0 :: pt) (t ++ (c0 :: pt) ++ r) = some (t, r) := by
  induction t with
  | nil =>
    have h1 : stripLit (c0 :: pt) (c0 :: (pt ++ r)) = some r := by
      have := stripLit_self (c0 :: pt) r
      simpa using this
    simp only [List.nil_append, List.cons_append]
    rw [splitOnFirst]
    simp [h1]
  | cons c t' ih =>
    have ht' : containsPat (c0 :: pt) t' = false := containsPat_tail ht
    have hnone := noPrefMid c0 pt (c :: t') r hc ht (by simp)
    have hih := ih ht'
    simp only [List.cons_append, List.append_assoc] at hnone hih ⊢
    rw [splitOnFirst]
    simp [hnone, hih]

lemma takeWhile_app_clean (P : Char → Bool) (l : List Char) (c : Char) (r : List Char)
    (h1 : l.all P = true) (h2 : P c = false) :
    (l ++ c :: r).takeWhile P = l := by
  induction l with
  | nil => simp [List.takeWhile, h2]
  | cons a l' ih =>
    simp only [List.all_cons, Bool.and_eq_true] at h1
    simp [List.takeWhile, h1.1, ih h1.2]

lemma dropWhile_app_clean (P : Char → Bool) (l : List Char) (c : Char) (r : List Char)
    (h1 : l.all P = true) (h2 : P c = false) :
    (l ++ c :: r).dropWhile P = c :: r := by
  induction l with
  | nil => simp [List.dropWhile, h2]
  | cons a l' ih =>
    simp only [List.all_cons, Bool.and_eq_true] at h1
    simp [List.dropWhile, h1.1, ih h1.2]

/-- The regex match at the start of a well-formed block consumes the block and
nothing else. -/
lemma matchAt_blk (b : Blk) (X : List Char) (hb : goodBlk b = true) :
    matchAt (blkText b ++ X) = some (blkText b, b.name, b.body, X) := by
  simp only [goodBlk, Bool.and_eq_true, Bool.not_eq_true'] at hb
  obtain ⟨⟨⟨⟨hws1, hws2⟩, hnm1⟩, hnm2⟩, hbd⟩ := hb
  have hstrip1 : stripLit startTag
      (blkText b ++ X)
      = some (b.ws ++ nameEq ++ b.name ++ quotGt ++ b.body ++ closerTag ++ X) := by
    rw [blkText]
    simp only [List.append_assoc]
    exact stripLit_self _ _
  have htw : (b.ws ++ nameEq ++ b.name ++ quotGt ++ b.body ++ closerTag ++ X).takeWhile isWsChar
      = b.ws := by
    simp only [List.append_assoc, nameEq, List.cons_append]
    exact takeWhile_app_clean _ _ _ _ hws2 (by decide)
  have hdw : (b.ws ++ nameEq ++ b.name ++ quotGt ++ b.body ++ closerTag ++ X).dropWhile isWsChar
      = nameEq ++ (b.name ++ quotGt ++ b.body ++ closerTag ++ X) := by
    simp only [List.append_assoc, nameEq, List.cons_append]
    exact dropWhile_app_clean _ _ _ _ hws2 (by decide)
  have hstrip2 : stripLit nameEq (nameEq ++ (b.name ++ quotGt ++ b.body ++ closerTag ++ X))
      = some (b.name ++ quotGt ++ b.body ++ closerTag ++ X) := stripLit_self _ _
  have htw2 : (b.name ++ quotGt ++ b.body ++ closerTag ++ X).takeWhile (fun c => c != '\x22')
      = b.name := by
    simp only [List.append_assoc, quotGt, List.cons_append]
    exact takeWhile_app_clean _ _ _ _ hnm2 (by decide)
  have hdw2 : (b.name ++ quotGt ++ b.body ++ closerTag ++ X).dropWhile (fun c => c != '\x22')
      = quotGt ++ (b.body ++ closerTag ++ X) := by
    simp only [List.append_assoc, quotGt, List.cons_append]
    exact dropWhile_app_clean _ _ _ _ hnm2 (by decide)
  have hstrip3 : stripLit quotGt (quotGt ++ (b.body ++ closerTag ++ X))
      = some (b.body ++ closerTag ++ X) := stripLit_self _ _
  have hsplit : splitOnFirst closerTag (b.body ++ closerTag ++ X) = some (b.body, X) := by
    rw [show closerTag = '<' :: ['/', 't', 'o', 'o', 'l', '>'] from rfl] at hbd ⊢
    exact splitOnFirst_clean _ _ _ _ (by decide) hbd
  rw [matchAt, hstrip1]
  simp only [htw, hdw, hstrip2, htw2, hdw2, hstrip3]
  simp only [List.append_assoc] at hsplit ⊢
  simp [hws1, hnm1, hsplit, blkText, List.append_assoc]

lemma scanBlock_of_match {cs : List Char} {r : List Char × List Char × List Char × List Char}
    (h : matchAt cs = some r) : scanBlock cs = some r := by
  cases cs with
  | nil => simp [matchAt, startTag, stripLit] at h
  | cons c cs' => simp [scanBlock, h]

lemma goodSeg_tail {c : Char} {s : List Char} (h : goodSeg (c :: s) = true) :
    goodSeg s = true := by
  simp only [goodSeg, Bool.not_eq_true'] at h ⊢
  exact containsPat_tail h

/-- Scanning a segment followed by a well-formed block finds the block. -/
lemma scanBlock_seg_blk (s : List Char) (b : Blk) (X : List Char)
    (hs : goodSeg s = true) (hb : goodBlk b = true) :
    scanBlock (s ++ blkText b ++ X) = some (blkText b, b.name, b.body, X) := by
  induction s with
  | nil =>
    simp only [List.nil_append]
    exact scanBlock_of_match (matchAt_blk b X hb)
  | cons c s' ih =>
    have hseg : containsPat startTag (c :: s') = false := by
      simpa [goodSeg, Bool.not_eq_true'] using hs
    have hnone : stripLit startTag
        ((c :: s') ++ startTag ++ (b.ws ++ nameEq ++ b.name ++ quotGt ++ b.body ++ closerTag ++ X))
        = none := by
      rw [show startTag = '<' :: ['t', 'o', 'o', 'l'] from rfl] at hseg ⊢
      exact noPrefMid _ _ _ _ (by decide) hseg (by simp)
    have hmnone : matchAt ((c :: s') ++ blkText b ++ X) = none := by
      rw [matchAt]
      rw [show (c :: s') ++ blkText b ++ X
          = (c :: s') ++ startTag ++ (b.ws ++ nameEq ++ b.name ++ quotGt ++ b.body ++ closerTag ++ X) by
        simp [blkText, List.append_assoc]]
      rw [hnone]
    have hih := ih (goodSeg_tail hs)
    simp only [List.cons_append] at hmnone ⊢
    rw [scanBlock, hmnone]
    simpa using hih

/-- Scanning a pure segment finds nothing. -/
lemma scanBlock_none (s : List Char) (hs : goodSeg s = true) : scanBlock s = none := by
  induction s with
  | nil => rfl
  | cons c s' ih =>
    have hseg : containsPat startTag (c :: s') = false := by
      simpa [goodSeg, Bool.not_eq_true'] using hs
    have hnone : stripLit startTag (c :: s') = none := by
      cases hstrip : stripLit startTag (c :: s') with
      | none => rfl
      | some z =>
        exfalso
        have := stripLit_some hstrip
        have hcontr := containsPat_of_split startTag [] z
        rw [List.nil_append, ← this, hseg] at hcontr
        exact Bool.false_ne_true hcontr
    have hmnone : matchAt (c :: s') = none := by rw [matchAt, hnone]
    rw [scanBlock, hmnone]
    simpa using ih (goodSeg_tail hs)

/-- The parse loop over a layout: the extracted invocations are the JSON-valid
blocks in textual order, and the display text is the layout with exactly those
blocks' spans removed. -/
lemma parseLoopCore_layout (L : List (List Char × Blk)) (tail : List Char) :
    ∀ (res : List Char) (acc : List ToolCall) (fuel : Nat),
    L.length < fuel → goodLayout L tail → goodTrace res L tail →
    parseLoopCore fuel (layoutText L tail) (res ++ layoutText L tail) acc
      = (res ++ residue L tail, acc ++ validCalls L) := by
  induction L with
  | nil =>
    intro res acc fuel hfuel hL _
    cases fuel with
    | zero => omega
    | succ n =>
      rw [show layoutText [] tail = tail from rfl, parseLoopCore,
        scanBlock_none tail hL.2]
      simp [residue, validCalls]
  | cons p L' ih =>
    intro res acc fuel hfuel hL htr
    obtain ⟨s, b⟩ := p
    cases fuel with
    | zero => simp at hfuel
    | succ n =>
      have hsb : goodSeg s = true ∧ goodBlk b = true := hL.1 (s, b) (by simp)
      have hL' : goodLayout L' tail :=
        ⟨fun q hq => hL.1 q (by simp [hq]), hL.2⟩
      have hscan := scanBlock_seg_blk s b (layoutText L' tail) hsb.1 hsb.2
      rw [show layoutText ((s, b) :: L') tail = s ++ blkText b ++ layoutText L' tail from rfl,
        parseLoopCore, hscan]
      dsimp only
      rw [show (jsonParse (trimChars b.body)) = validJson b from rfl]
      simp only [goodTrace] at htr
      cases hv : validJson b with
      | some v =>
        rw [hv] at htr
        obtain ⟨hsplit, htr'⟩ := htr
        have hrepl : replaceFirst (res ++ (s ++ blkText b ++ layoutText L' tail)) (blkText b)
            = (res ++ s) ++ layoutText L' tail := by
          rw [replaceFirst, hsplit]
        rw [show res ++ (s ++ blkText b ++ layoutText L' tail)
            = res ++ s ++ blkText b ++ layoutText L' tail by simp [List.append_assoc]] at hrepl
        have hstep := ih (res ++ s) (acc ++ [⟨⟨b.name⟩, v⟩]) n (by simpa using hfuel) hL' htr'
        rw [show res ++ (s ++ blkText b ++ layoutText L' tail)
            = res ++ s ++ blkText b ++ layoutText L' tail by simp [List.append_assoc]]
        rw [hrepl]
        dsimp only
        rw [hstep]
        rw [show residue ((s, b) :: L') tail
            = (match validJson b with
               | some _ => s ++ residue L' tail
               | none => s ++ blkText b ++ residue L' tail) from rfl,
          show validCalls ((s, b) :: L')
            = (match validJson b with
               | some v => (⟨⟨b.name⟩, v⟩ : ToolCall) :: validCalls L'
               | none => validCalls L') from rfl, hv]
        simp [List.append_assoc]
      | none =>
        rw [hv] at htr
        have hstep := ih ((res ++ s) ++ blkText b) acc n (by simpa using hfuel) hL' htr
        rw [show res ++ (s ++ blkText b ++ layoutText L' tail)
            = ((res ++ s) ++ blkText b) ++ layoutText L' tail by simp [List.append_assoc]]
        dsimp only
        rw [hstep]
        rw [show residue ((s, b) :: L') tail
            = (match validJson b with
               | some _ => s ++ residue L' tail
               | none => s ++ blkText b ++ residue L' tail) from rfl,
          show validCalls ((s, b) :: L')
            = (match validJson b with
               | some v => (⟨⟨b.name⟩, v⟩ : ToolCall) :: validCalls L'
               | none => validCalls L') from rfl, hv]
        simp [List.append_assoc]

lemma blkText_length_pos (b : Blk) : 0 < (blkText b).length := by
  simp [blkText, startTag]

lemma layout_length_ge (L : List (List Char × Blk)) (tail : List Char) :
    L.length ≤ (layoutText L tail).length := by
  induction L with
  | nil => simp [layoutText]
  | cons p L' ih =>
    obtain ⟨s, b⟩ := p
    have h1 := blkText_length_pos b
    simp only [layoutText, List.length_append, List.length_cons]
    omega

/-- Evaluation of `parseToolCalls` on a layout: the display text is the trimmed residue and
the invocations are the JSON-valid blocks in order. -/
lemma parseToolCalls_layout (L : List (List Char × Blk)) (tail : List Char)
    (hL : goodLayout L tail) (htr : goodTrace [] L tail) :
    parseToolCalls ⟨layoutText L tail⟩ = (⟨trimChars (residue L tail)⟩, validCalls L) := by
  have h := parseLoopCore_layout L tail [] []
    ((layoutText L tail).length + 1)
    (by have := layout_length_ge L tail; omega) hL htr
  simp only [List.nil_append] at h
  simp [parseToolCalls, h]

/-- C2: parser fail-soft — for a model text consisting of one malformed block
(JSON fails to decode) and one well-formed block (JSON decodes), in either
order, separated by marker-free segments, the parse yields exactly the one
invocation of the well-formed block; the well-formed block's exact text span
is removed from the display text while the malformed block's literal text
remains in it; parsing is not aborted by the malformed block. -/
theorem c2_parser_fail_soft (s0 s1 s2 : List Char) (bm bv : Blk) (v : Json)
    (hs0 : goodSeg s0 = true) (hs1 : goodSeg s1 = true) (hs2 : goodSeg s2 = true)
    (hbm : goodBlk bm = true) (hbv : goodBlk bv = true)
    (hm : validJson bm = none) (hv : validJson bv = some v)
    (hocc1 : splitOnFirst (blkText bv) (s0 ++ blkText bm ++ s1 ++ blkText bv ++ s2)
      = some (s0 ++ blkText bm ++ s1, s2))
    (hocc2 : splitOnFirst (blkText bv) (s0 ++ blkText bv ++ s1 ++ blkText bm ++ s2)
      = some (s0, s1 ++ blkText bm ++ s2)) :
    (parseToolCalls ⟨s0 ++ blkText bm ++ s1 ++ blkText bv ++ s2⟩
      = (⟨trimChars (s0 ++ blkText bm ++ s1 ++ s2)⟩, [⟨⟨bv.name⟩, v⟩]))
    ∧ (parseToolCalls ⟨s0 ++ blkText bv ++ s1 ++ blkText bm ++ s2⟩
      = (⟨trimChars (s0 ++ s1 ++ blkText bm ++ s2)⟩, [⟨⟨bv.name⟩, v⟩])) := by
  constructor
  · have hL : goodLayout [(s0, bm), (s1, bv)] s2 := by
      refine ⟨?_, hs2⟩
      intro p hp
      simp only [List.mem_cons, List.not_mem_nil, or_false] at hp
      rcases hp with h | h <;> subst h
      · exact ⟨hs0, hbm⟩
      · exact ⟨hs1, hbv⟩
    have htr : goodTrace [] [(s0, bm), (s1, bv)] s2 := by
      simp only [goodTrace, hm, hv, layoutText, List.nil_append, and_true]
      simpa [List.append_assoc] using hocc1
    have h := parseToolCalls_layout [(s0, bm), (s1, bv)] s2 hL htr
    simp only [layoutText, residue, validCalls, hm, hv, List.append_assoc] at h
    simpa [List.append_assoc] using h
  · have hL : goodLayout [(s0, bv), (s1, bm)] s2 := by
      refine ⟨?_, hs2⟩
      intro p hp
      simp only [List.mem_cons, List.not_mem_nil, or_false] at hp
      rcases hp with h | h <;> subst h
      · exact ⟨hs0, hbv⟩
      · exact ⟨hs1, hbm⟩
    have htr : goodTrace [] [(s0, bv), (s1, bm)] s2 := by
      simp only [goodTrace, hm, hv, layoutText, List.nil_append, and_true]
      simpa [List.append_assoc] using hocc2
    have h := parseToolCalls_layout [(s0, bv), (s1, bm)] s2 hL htr
    simp only [layoutText, residue, validCalls, hm, hv, List.append_assoc] at h
    simpa [List.append_assoc] using h

/-- Every branch of the dispatcher labels its result with the invocation's
tool name. -/
lemma executeTool_tool_eq (root : String) (run : Runner) (tc : ToolCall) (fs : FS) :
    ((executeTool root run tc fs).2).tool = tc.tool := by
  rw [executeTool]
  by_cases h1 : tc.tool = "create_file"
  · rw [if_pos h1]; dsimp only; repeat' first | rfl | split
  rw [if_neg h1]
  by_cases h2 : tc.tool = "edit_file"
  · rw [if_pos h2]; dsimp only; repeat' first | rfl | split
  rw [if_neg h2]
  by_cases h3 : tc.tool = "read_file"
  · rw [if_pos h3]; dsimp only; repeat' first | rfl | split
  rw [if_neg h3]
  by_cases h4 : tc.tool = "delete_file"
  · rw [if_pos h4]; dsimp only; repeat' first | rfl | split
  rw [if_neg h4]
  by_cases h5 : tc.tool = "run_command"
  · rw [if_pos h5]; dsimp only; repeat' first | rfl | split
  rw [if_neg h5]
  by_cases h6 : tc.tool = "list_files"
  · rw [if_pos h6]
  rw [if_neg h6]
  by_cases h7 : tc.tool = "append_file"
  · rw [if_pos h7]; dsimp only; repeat' first | rfl | split
  rw [if_neg h7]
  by_cases h8 : tc.tool = "search_files"
  · rw [if_pos h8]; dsimp only; repeat' first | rfl | split
  rw [if_neg h8]
  by_cases h9 : tc.tool = "mkdir"
  · rw [if_pos h9]; dsimp only; repeat' first | rfl | split
  rw [if_neg h9]
  by_cases h10 : tc.tool = "move_file"
  · rw [if_pos h10]; dsimp only; repeat' first | rfl | split
  rw [if_neg h10]
  by_cases h11 : tc.tool = "copy_file"
  · rw [if_pos h11]; dsimp only; repeat' first | rfl | split
  rw [if_neg h11]

/-- C7: order preservation and per-invocation failure isolation — for model
text with three well-formed JSON-valid tool blocks A, B, C in that textual
order, the parser extracts the three invocations in order A, B, C, and the
orchestrator loop produces exactly one `ToolResult` per invocation, in the
same order, labelled with the respective tool names.  The runner `run` is
universally quantified, so the conclusion holds whatever any individual
invocation does — including failing — which is the failure-isolation part:
no outcome of one invocation removes or reorders its siblings' results. -/
theorem c7_order_preservation (root : String) (run : Runner) (fs : FS)
    (s0 s1 s2 s3 : List Char) (b1 b2 b3 : Blk) (v1 v2 v3 : Json)
    (hs0 : goodSeg s0 = true) (hs1 : goodSeg s1 = true)
    (hs2 : goodSeg s2 = true) (hs3 : goodSeg s3 = true)
    (hb1 : goodBlk b1 = true) (hb2 : goodBlk b2 = true) (hb3 : goodBlk b3 = true)
    (hv1 : validJson b1 = some v1) (hv2 : validJson b2 = some v2)
    (hv3 : validJson b3 = some v3)
    (hocc1 : splitOnFirst (blkText b1)
        (s0 ++ blkText b1 ++ s1 ++ blkText b2 ++ s2 ++ blkText b3 ++ s3)
      = some (s0, s1 ++ blkText b2 ++ s2 ++ blkText b3 ++ s3))
    (hocc2 : splitOnFirst (blkText b2)
        (s0 ++ s1 ++ blkText b2 ++ s2 ++ blkText b3 ++ s3)
      = some (s0 ++ s1, s2 ++ blkText b3 ++ s3))
    (hocc3 : splitOnFirst (blkText b3) (s0 ++ s1 ++ s2 ++ blkText b3 ++ s3)
      = some (s0 ++ s1 ++ s2, s3)) :
    ((parseToolCalls ⟨s0 ++ blkText b1 ++ s1 ++ blkText b2 ++ s2 ++ blkText b3 ++ s3⟩).2
      = [⟨⟨b1.name⟩, v1⟩, ⟨⟨b2.name⟩, v2⟩, ⟨⟨b3.name⟩, v3⟩])
    ∧ ((runTools root run
        (parseToolCalls ⟨s0 ++ blkText b1 ++ s1 ++ blkText b2 ++ s2 ++ blkText b3 ++ s3⟩).2
        fs).2.map ToolResult.tool
      = [⟨b1.name⟩, ⟨b2.name⟩, ⟨b3.name⟩])
    ∧ ((runTools root run
        (parseToolCalls ⟨s0 ++ blkText b1 ++ s1 ++ blkText b2 ++ s2 ++ blkText b3 ++ s3⟩).2
        fs).2.length = 3) := by
  have hL : goodLayout [(s0, b1), (s1, b2), (s2, b3)] s3 := by
    refine ⟨?_, hs3⟩
    intro p hp
    simp only [List.mem_cons, List.not_mem_nil, or_false] at hp
    rcases hp with h | h | h <;> subst h
    · exact ⟨hs0, hb1⟩
    · exact ⟨hs1, hb2⟩
    · exact ⟨hs2, hb3⟩
  have htr : goodTrace [] [(s0, b1), (s1, b2), (s2, b3)] s3 := by
    simp only [goodTrace, hv1, hv2, hv3, layoutText, List.nil_append, and_true]
    refine ⟨?_, ?_, ?_⟩
    · simpa [List.append_assoc] using hocc1
    · simpa [List.append_assoc] using hocc2
    · simpa [List.append_assoc] using hocc3
  have h := parseToolCalls_layout [(s0, b1), (s1, b2), (s2, b3)] s3 hL htr
  simp only [layoutText, validCalls, hv1, hv2, hv3, List.append_assoc] at h
  have htools : (parseToolCalls ⟨s0 ++ blkText b1 ++ s1 ++ blkText b2 ++ s2 ++ blkText b3 ++ s3⟩).2
      = [⟨⟨b1.name⟩, v1⟩, ⟨⟨b2.name⟩, v2⟩, ⟨⟨b3.name⟩, v3⟩] := by
    rw [show (s0 ++ blkText b1 ++ s1 ++ blkText b2 ++ s2 ++ blkText b3 ++ s3 : List Char)
        = s0 ++ (blkText b1 ++ (s1 ++ (blkText b2 ++ (s2 ++ (blkText b3 ++ s3))))) by
      simp [List.append_assoc]]
    rw [h]
  refine ⟨htools, ?_, ?_⟩ <;> rw [htools] <;>
    simp [runTools, executeTool_tool_eq]

theorem c2_witness :
    (validJson ⟨[' '], "bad".data, '\x7b' :: "oops".data⟩ = none)
    ∧ (validJson ⟨[' '], "good".data, ['\x7b', '\x7d']⟩ = some (Json.obj []))
    ∧ (parseToolCalls
        ⟨"Hello ".data ++ blkText ⟨[' '], "bad".data, '\x7b' :: "oops".data⟩
          ++ " mid ".data ++ blkText ⟨[' '], "good".data, ['\x7b', '\x7d']⟩ ++ " end".data⟩
      = (⟨trimChars ("Hello ".data ++ blkText ⟨[' '], "bad".data, '\x7b' :: "oops".data⟩
          ++ " mid ".data ++ " end".data)⟩,
         [⟨"good", Json.obj []⟩])) := by
  have h := c2_parser_fail_soft "Hello ".data " mid ".data " end".data
    ⟨[' '], "bad".data, '\x7b' :: "oops".data⟩ ⟨[' '], "good".data, ['\x7b', '\x7d']⟩
    (Json.obj [])
    (by decide) (by decide) (by decide) (by decide) (by decide) rfl rfl
    (by decide) (by decide)
  exact ⟨rfl, rfl, h.1⟩

theorem c7_witness :
    (validJson ⟨[' '], "a".data, "1".data⟩ = some (Json.num "1"))
    ∧ ((parseToolCalls
        ⟨"Run: ".data ++ blkText ⟨[' '], "a".data, "1".data⟩
          ++ " ".data ++ blkText ⟨[' '], "b".data, "2".data⟩
          ++ " ".data ++ blkText ⟨[' '], "c".data, "3".data⟩ ++ []⟩).2
      = [⟨"a", Json.num "1"⟩, ⟨"b", Json.num "2"⟩, ⟨"c", Json.num "3"⟩])
    ∧ ((runTools "/w" (fun _ _ => ExecOutcome.ok "" "")
        (parseToolCalls
          ⟨"Run: ".data ++ blkText ⟨[' '], "a".data, "1".data⟩
            ++ " ".data ++ blkText ⟨[' '], "b".data, "2".data⟩
            ++ " ".data ++ blkText ⟨[' '], "c".data, "3".data⟩ ++ []⟩).2
        ⟨[], []⟩).2.map ToolResult.tool = ["a", "b", "c"]) := by
  have h := c7_order_preservation "/w" (fun _ _ => ExecOutcome.ok "" "") ⟨[], []⟩
    "Run: ".data " ".data " ".data []
    ⟨[' '], "a".data, "1".data⟩ ⟨[' '], "b".data, "2".data⟩ ⟨[' '], "c".data, "3".data⟩
    (Json.num "1") (Json.num "2") (Json.num "3")
    (by decide) (by decide) (by decide) (by decide)
    (by decide) (by decide) (by decide)
    rfl rfl rfl
    (by decide) (by decide) (by decide)
  exact ⟨rfl, h.1, h.2.1⟩

lemma containsPat_sound {pat s : List Char} (h : containsPat pat s = true) :
    ∃ x y, s = x ++ pat ++ y := by
  induction s with
  | nil =>
    cases pat with
    | nil => exact ⟨[], [], rfl⟩
    | cons p ps => simp [containsPat, stripLit] at h
  | cons c s' ih =>
    rw [containsPat, Bool.or_eq_true] at h
    rcases h with h | h
    · rw [Option.isSome_iff_exists] at h
      obtain ⟨z, hz⟩ := h
      exact ⟨[], z, by simpa using stripLit_some hz⟩
    · obtain ⟨x, y, hxy⟩ := ih h
      exact ⟨c :: x, y, by simp [hxy]⟩

lemma goodSeg_of_noLt {s : List Char} (h : segNoLt s = true) : goodSeg s = true := by
  rw [goodSeg, Bool.not_eq_true']
  cases hc : containsPat startTag s with
  | false => rfl
  | true =>
    exfalso
    obtain ⟨x, y, hxy⟩ := containsPat_sound hc
    have hmem : '<' ∈ s := by
      rw [hxy, show startTag = '<' :: ['t', 'o', 'o', 'l'] from rfl]
      simp
    rw [segNoLt, List.all_eq_true] at h
    simpa using h '<' hmem

lemma segNoLt_append {a b : List Char} (ha : segNoLt a = true) (hb : segNoLt b = true) :
    segNoLt (a ++ b) = true := by
  rw [segNoLt, List.all_append]
  rw [segNoLt] at ha hb
  simp [ha, hb]

/-- The residue of a parse is the text of the invalid-blocks layout. -/
lemma residue_eq_invLayout (L : List (List Char × Blk)) (tail : List Char) :
    residue L tail = layoutText (invLayout L tail).1 (invLayout L tail).2 := by
  induction L with
  | nil => rfl
  | cons p L' ih =>
    obtain ⟨s, b⟩ := p
    rw [residue, invLayout]
    cases hv : validJson b with
    | none => simp [layoutText, ih]
    | some v =>
      cases hinv : invLayout L' tail with
      | mk L2 t2 =>
        cases L2 with
        | nil =>
          rw [hinv] at ih
          simp only [layoutText] at ih
          simp [layoutText, ih]
        | cons q L3 =>
          obtain ⟨s2, b2⟩ := q
          rw [hinv] at ih
          simp only [layoutText] at ih
          simp [layoutText, ih, List.append_assoc]

/-- Properties of the invalid-blocks layout: segments stay `<`-free, blocks
stay well formed and are all JSON-invalid, and the tail stays `<`-free. -/
lemma invLayout_good (L : List (List Char × Blk)) (tail : List Char)
    (hseg : ∀ p ∈ L, segNoLt p.1 = true) (hblk : ∀ p ∈ L, goodBlk p.2 = true)
    (htail : segNoLt tail = true) :
    (∀ p ∈ (invLayout L tail).1,
        segNoLt p.1 = true ∧ goodBlk p.2 = true ∧ validJson p.2 = none)
    ∧ segNoLt (invLayout L tail).2 = true := by
  induction L with
  | nil => exact ⟨by simp [invLayout], by simpa [invLayout] using htail⟩
  | cons p L' ih =>
    obtain ⟨s, b⟩ := p
    have hs : segNoLt s = true := hseg (s, b) (by simp)
    have hb : goodBlk b = true := hblk (s, b) (by simp)
    have ih' := ih (fun q hq => hseg q (by simp [hq])) (fun q hq => hblk q (by simp [hq]))
    rw [invLayout]
    cases hv : validJson b with
    | none =>
      refine ⟨?_, ih'.2⟩
      intro q hq
      simp only [List.mem_cons] at hq
      rcases hq with h | h
      · subst h; exact ⟨hs, hb, hv⟩
      · exact ih'.1 q h
    | some v =>
      cases hinv : invLayout L' tail with
      | mk L2 t2 =>
        rw [hinv] at ih'
        cases L2 with
        | nil =>
          exact ⟨by simp, segNoLt_append hs ih'.2⟩
        | cons q L3 =>
          obtain ⟨s2, b2⟩ := q
          have hq2 := ih'.1 (s2, b2) (by simp)
          refine ⟨?_, ih'.2⟩
          intro r hr
          simp only [List.mem_cons] at hr
          rcases hr with h | h
          · subst h
            exact ⟨segNoLt_append hs hq2.1, hq2.2.1, hq2.2.2⟩
          · exact ih'.1 r (by simp [h])

lemma validCalls_allInvalid {L : List (List Char × Blk)}
    (h : ∀ p ∈ L, validJson p.2 = none) : validCalls L = [] := by
  induction L with
  | nil => rfl
  | cons p L' ih =>
    obtain ⟨s, b⟩ := p
    have hb := h (s, b) (by simp)
    rw [validCalls]
    simp only at hb
    rw [hb]
    exact ih (fun q hq => h q (by simp [hq]))

lemma goodTrace_allInvalid (L : List (List Char × Blk)) (tail : List Char)
    (h : ∀ p ∈ L, validJson p.2 = none) : ∀ res, goodTrace res L tail := by
  induction L with
  | nil => intro res; trivial
  | cons p L' ih =>
    intro res
    obtain ⟨s, b⟩ := p
    have hb := h (s, b) (by simp)
    rw [goodTrace]
    simp only at hb
    rw [hb]
    exact ih (fun q hq => h q (by simp [hq])) _

lemma dropWhile_app_mid (P : Char → Bool) (x : List Char) (c : Char) (y : List Char)
    (hc : P c = false) : (x ++ c :: y).dropWhile P = x.dropWhile P ++ c :: y := by
  induction x with
  | nil => simp [List.dropWhile, hc]
  | cons a x' ih =>
    by_cases ha : P a = true
    · simp [List.dropWhile, ha, ih]
    · rw [Bool.not_eq_true] at ha
      simp [List.dropWhile, ha]

lemma dropTrail_app_mid (P : Char → Bool) (x : List Char) (c : Char) (y : List Char)
    (hc : P c = false) : dropTrail P (x ++ c :: y) = x ++ c :: dropTrail P y := by
  rw [dropTrail, show (x ++ c :: y).reverse = y.reverse ++ c :: x.reverse by simp,
    dropWhile_app_mid P y.reverse c x.reverse hc]
  simp [dropTrail]

lemma all_dropWhile (P Q : Char → Bool) (l : List Char) (h : l.all P = true) :
    (l.dropWhile Q).all P = true := by
  induction l with
  | nil => simp
  | cons a l' ih =>
    simp only [List.all_cons, Bool.and_eq_true] at h
    by_cases ha : Q a = true
    · simp [List.dropWhile, ha, ih h.2]
    · rw [Bool.not_eq_true] at ha
      simp [List.dropWhile, ha, h.1, h.2]

lemma segNoLt_dropWhile {l : List Char} (Q : Char → Bool) (h : segNoLt l = true) :
    segNoLt (l.dropWhile Q) = true := all_dropWhile _ Q l h

lemma segNoLt_dropTrail {l : List Char} (Q : Char → Bool) (h : segNoLt l = true) :
    segNoLt (dropTrail Q l) = true := by
  rw [dropTrail, segNoLt, List.all_reverse]
  exact all_dropWhile _ Q l.reverse (by rwa [segNoLt, ← List.all_reverse] at h)

lemma layout_append (L : List (List Char × Blk)) (t : List Char) :
    layoutText L t = layoutText L [] ++ t := by
  induction L with
  | nil => simp [layoutText]
  | cons p L' ih =>
    obtain ⟨s, b⟩ := p
    simp [layoutText, ih, List.append_assoc]

lemma layout_lastGt (s : List Char) (b : Blk) (L : List (List Char × Blk)) :
    ∃ X, layoutText ((s, b) :: L) [] = X ++ ['>'] := by
  induction L generalizing s b with
  | nil =>
    refine ⟨s ++ (startTag ++ b.ws ++ nameEq ++ b.name ++ quotGt ++ b.body
      ++ ['<', '/', 't', 'o', 'o', 'l']), ?_⟩
    simp [layoutText, blkText, closerTag, List.append_assoc]
  | cons q L' ih =>
    obtain ⟨s2, b2⟩ := q
    obtain ⟨X, hX⟩ := ih s2 b2
    refine ⟨s ++ blkText b ++ X, ?_⟩
    rw [show layoutText ((s, b) :: (s2, b2) :: L') []
        = s ++ blkText b ++ layoutText ((s2, b2) :: L') [] from rfl, hX]
    simp [List.append_assoc]

/-- Trimming a non-empty layout trims only the leading segment and the tail. -/
lemma trim_layout (s : List Char) (b : Blk) (L : List (List Char × Blk)) (tail : List Char) :
    trimChars (layoutText ((s, b) :: L) tail)
      = layoutText ((s.dropWhile isWsChar, b) :: L) (dropTrail isWsChar tail) := by
  have hhead : layoutText ((s, b) :: L) tail
      = s ++ '<' :: (['t', 'o', 'o', 'l'] ++ b.ws ++ nameEq ++ b.name ++ quotGt ++ b.body
          ++ closerTag ++ layoutText L tail) := by
    simp [layoutText, blkText, startTag, List.append_assoc]
  have hstep1 : (layoutText ((s, b) :: L) tail).dropWhile isWsChar
      = s.dropWhile isWsChar ++ '<' :: (['t', 'o', 'o', 'l'] ++ b.ws ++ nameEq ++ b.name
          ++ quotGt ++ b.body ++ closerTag ++ layoutText L tail) := by
    rw [hhead]
    exact dropWhile_app_mid _ _ _ _ (by decide)
  have hback : s.dropWhile isWsChar ++ '<' :: (['t', 'o', 'o', 'l'] ++ b.ws ++ nameEq ++ b.name
          ++ quotGt ++ b.body ++ closerTag ++ layoutText L tail)
      = layoutText ((s.dropWhile isWsChar, b) :: L) tail := by
    simp [layoutText, blkText, startTag, List.append_assoc]
  obtain ⟨X, hX⟩ := layout_lastGt (s.dropWhile isWsChar) b L
  have hsplit : layoutText ((s.dropWhile isWsChar, b) :: L) tail = X ++ '>' :: tail := by
    rw [layout_append, hX]
    simp
  rw [trimChars, hstep1, hback, hsplit, dropTrail_app_mid _ _ _ _ (by decide)]
  rw [show (X ++ '>' :: dropTrail isWsChar tail : List Char)
      = (X ++ ['>']) ++ dropTrail isWsChar tail by simp]
  rw [← hX, ← layout_append]

/-- C3 counterexample: parser idempotence fails.  For the text
`<tool <tool name="x">{}</tool>name="z">{}</tool>` the first parse matches and
removes only the inner block `<tool name="x">{}</tool>`; the removal
juxtaposes the leftover fragments `<tool ` and `name="z">{}</tool>` into a new
well-formed block, so the display text of the first parse still contains a
well-formed invocation block and a second parse yields one further invocation
instead of zero. -/
theorem c3_parser_idem_cex :
    ((parseToolCalls
        "<tool <tool name=\x22x\x22>\x7b\x7d</tool>name=\x22z\x22>\x7b\x7d</tool>").1
      = "<tool name=\x22z\x22>\x7b\x7d</tool>")
    ∧ ((parseToolCalls
        "<tool <tool name=\x22x\x22>\x7b\x7d</tool>name=\x22z\x22>\x7b\x7d</tool>").2.length
      = 1)
    ∧ ((parseToolCalls (parseToolCalls
        "<tool <tool name=\x22x\x22>\x7b\x7d</tool>name=\x22z\x22>\x7b\x7d</tool>").1).2.length
      = 1) := by
  exact ⟨by decide, by decide, by decide⟩

/-- C3 amended: parser idempotence holds for texts in which tool markup occurs
only as complete well-formed blocks — the text outside the blocks contains no
`<` character (ruling out stray tag fragments that a removal could juxtapose
into a new block, as in the counterexample) and each JSON-valid block's span
first occurs at its own position.  Then one pass removes every JSON-valid
block and a second parse of the display text yields zero invocations. -/
theorem c3_parser_idem_amended (L : List (List Char × Blk)) (tail : List Char)
    (hseg : ∀ p ∈ L, segNoLt p.1 = true) (hblk : ∀ p ∈ L, goodBlk p.2 = true)
    (htail : segNoLt tail = true) (htr : goodTrace [] L tail) :
    (parseToolCalls (parseToolCalls ⟨layoutText L tail⟩).1).2 = [] := by
  have hL : goodLayout L tail :=
    ⟨fun p hp => ⟨goodSeg_of_noLt (hseg p hp), hblk p hp⟩, goodSeg_of_noLt htail⟩
  have h1 := parseToolCalls_layout L tail hL htr
  rw [h1]
  dsimp only
  have hres := residue_eq_invLayout L tail
  have hgood := invLayout_good L tail hseg hblk htail
  cases hinv : (invLayout L tail).1 with
  | nil =>
    rw [hres, hinv, show layoutText [] (invLayout L tail).2 = (invLayout L tail).2 from rfl]
    have htrim : segNoLt (trimChars (invLayout L tail).2) = true := by
      rw [trimChars]
      exact segNoLt_dropTrail _ (segNoLt_dropWhile _ hgood.2)
    have h2 := parseToolCalls_layout [] (trimChars (invLayout L tail).2)
      ⟨by simp, goodSeg_of_noLt htrim⟩ trivial
    rw [show layoutText [] (trimChars (invLayout L tail).2)
        = trimChars (invLayout L tail).2 from rfl] at h2
    simp [h2, validCalls]
  | cons q L2 =>
    obtain ⟨s1, b1⟩ := q
    rw [hres, hinv, trim_layout]
    have hb1 := hgood.1 (s1, b1) (by rw [hinv]; simp)
    have hL2good : ∀ p ∈ L2, segNoLt p.1 = true ∧ goodBlk p.2 = true ∧ validJson p.2 = none :=
      fun p hp => hgood.1 p (by rw [hinv]; simp [hp])
    have hlay : goodLayout ((s1.dropWhile isWsChar, b1) :: L2)
        (dropTrail isWsChar (invLayout L tail).2) := by
      constructor
      · intro p hp
        simp only [List.mem_cons] at hp
        rcases hp with h | h
        · subst h
          exact ⟨goodSeg_of_noLt (segNoLt_dropWhile _ hb1.1), hb1.2.1⟩
        · exact ⟨goodSeg_of_noLt (hL2good p h).1, (hL2good p h).2.1⟩
      · exact goodSeg_of_noLt (segNoLt_dropTrail _ hgood.2)
    have hallinv : ∀ p ∈ ((s1.dropWhile isWsChar, b1) :: L2), validJson p.2 = none := by
      intro p hp
      simp only [List.mem_cons] at hp
      rcases hp with h | h
      · subst h
        exact hb1.2.2
      · exact (hL2good p h).2.2
    have h2 := parseToolCalls_layout ((s1.dropWhile isWsChar, b1) :: L2)
      (dropTrail isWsChar (invLayout L tail).2) hlay (goodTrace_allInvalid _ _ hallinv _)
    simp [h2, validCalls_allInvalid hallinv]

theorem c3_parser_idem_witness :
    (segNoLt "Hello ".data = true) ∧ (segNoLt " tail".data = true)
    ∧ (goodBlk ⟨[' '], "good".data, ['\x7b', '\x7d']⟩ = true)
    ∧ (goodBlk ⟨[' '], "bad".data, '\x7b' :: "oops".data⟩ = true)
    ∧ (parseToolCalls (parseToolCalls
        ⟨layoutText [("Hello ".data, ⟨[' '], "good".data, ['\x7b', '\x7d']⟩),
                     (" mid ".data, ⟨[' '], "bad".data, '\x7b' :: "oops".data⟩)] " tail".data⟩).1).2
      = [] := by
  refine ⟨by decide, by decide, by decide, by decide, ?_⟩
  exact c3_parser_idem_amended
    [("Hello ".data, ⟨[' '], "good".data, ['\x7b', '\x7d']⟩),
     (" mid ".data, ⟨[' '], "bad".data, '\x7b' :: "oops".data⟩)] " tail".data
    (by decide) (by decide) (by decide)
    (by constructor
        · decide
        · trivial)
